import Mathlib

set_option maxHeartbeats 1000000

attribute [local semireducible] Rat.add Rat.mul Rat.inv Rat.sub

/-!
Verification development for the daily-quotes ingestion and scoring pipeline
(`src/app/api/scoreboard/route.ts`, `src/app/api/scores/route.ts`, and the
medium-horizon variant in `src/unnamed/part_005`).

Modelling conventions:
* JavaScript numbers are modelled as `ℚ`; a NaN/Infinity result ("non-finite"
  in the source) is modelled as `none : Option ℚ`.  Each division in the
  source is guarded exactly where the source guards it; an unguarded division
  whose denominator may be zero is modelled as returning `none` there, which
  matches the finite/non-finite classification of IEEE arithmetic.
* JavaScript `Map` objects keyed by numbers are modelled as association lists
  `List (ℚ × ℚ)` built in the same insertion order as the source.
* The SQLite tables are modelled as lists of rows; `INSERT … ON CONFLICT DO
  UPDATE` is an in-place overwrite keyed by (code, date), and plain inserts
  append.
-/

deriving instance DecidableEq for Except

/-! ### Percentile normalizer (`percentile01`, scoreboard route lines 469-485) -/

/-- Number of list entries strictly below `v` (the 0-based start of `v`'s run
in the ascending sort). -/
def countLt (v : ℚ) (l : List ℚ) : ℕ := l.countP (fun w => decide (w < v))

/-- Number of list entries equal to `v`. -/
def countEq (v : ℚ) (l : List ℚ) : ℕ := l.countP (fun w => decide (w = v))

/-- Length of the leading run of entries equal to `v`; this is what the inner
`while (j + 1 < n && sorted[j+1] === sorted[i]) j++` loop of `percentile01`
advances over. -/
def runLen (v : ℚ) : List ℚ → ℕ
  | [] => 0
  | x :: xs => if x = v then runLen v xs + 1 else 0

/-- The outer loop of `percentile01`: walk the ascending sort, and for each
run of equal values store `rankAvg / n` where
`rankAvg = (i + 1 + (j + 1)) / 2` with `i`/`j` the 0-based run bounds.
The first argument is structural fuel (each loop iteration consumes at least
one sorted element, so fuel equal to the list length is enough). -/
def pctAux (n : ℚ) : ℕ → ℕ → List ℚ → List (ℚ × ℚ)
  | 0, _, _ => []
  | _ + 1, _, [] => []
  | fuel + 1, i, x :: xs =>
    (x, (((i : ℚ) + 1 + (((i + runLen x xs : ℕ) : ℚ) + 1)) / 2) / n)
      :: pctAux n fuel (i + runLen x xs + 1) (xs.drop (runLen x xs))

/-- `percentile01(values)` from the source: sort ascending, then map each
distinct value to its tie-averaged 1-based rank divided by `n`. -/
def percentile01 (values : List ℚ) : List (ℚ × ℚ) :=
  pctAux (values.length : ℚ) values.length 0 (List.insertionSort (· ≤ ·) values)

/-- `Map.get(k)` on the association lists produced by `percentile01`. -/
def mapGet (m : List (ℚ × ℚ)) (k : ℚ) : Option ℚ :=
  (m.find? (fun e => decide (e.1 = k))).map Prod.snd

/-- Sum of the 1-based rank positions of `v` in `s`, where the head of `s` has
rank `p`.  Used to state the "average of the 1-based rank positions"
reading of the percentile map. -/
def rankSum (v : ℚ) : List ℚ → ℕ → ℕ
  | [], _ => 0
  | x :: xs, p => (if x = v then p else 0) + rankSum v xs (p + 1)

/-! ### JavaScript numeric helpers -/

/-- `Math.round` (round half toward positive infinity). -/
def jsRound (q : ℚ) : ℤ := ⌊q + 1 / 2⌋

/-- `mean(arr)` from the source: `NaN` (`none`) on an empty list, else the sum
divided by the length. -/
def meanQ (l : List ℚ) : Option ℚ :=
  if l.isEmpty then none else some (l.sum / (l.length : ℚ))

/-- Mean of a list that may contain non-finite entries: any non-finite entry
makes the sum (hence the mean) non-finite, and an empty list gives `NaN`. -/
def meanOpt (l : List (Option ℚ)) : Option ℚ :=
  if l.any (·.isNone) then none else meanQ (l.filterMap id)

/-- `arr.slice(-n)` for `n ≥ 1`: the last `n` elements (all of them when
`n ≥ length`). -/
def lastN (n : ℕ) (l : List α) : List α := l.drop (l.length - n)

/-- `arr.slice(0, -n)` for `n ≥ 1`: everything but the last `n` elements. -/
def dropLastN (n : ℕ) (l : List α) : List α := l.take (l.length - n)

/-! ### Quote records and normalization (`normalizeCode`,
`fetchDailyQuotesAllPages` record loop, scoreboard route lines 41-46 and
194-209) -/

/-- One raw record of the provider's `daily_quotes` array.  JSON `null` or a
missing field is `none`; numeric fields hold the already-coerced number. -/
structure RawQuote where
  Code : Option String
  Date : Option String
  Open : Option ℚ
  High : Option ℚ
  Low : Option ℚ
  Close : Option ℚ
  Volume : Option ℚ
deriving DecidableEq

/-- The normalized `DailyQuote` shape of the source. -/
structure DailyQuote where
  Date : String
  Code : String
  Open : Option ℚ
  High : Option ℚ
  Low : Option ℚ
  Close : Option ℚ
  Volume : Option ℚ
deriving DecidableEq

def isWsChar (c : Char) : Bool := c == ' ' || c == '\t' || c == '\n' || c == '\r'

/-- `String.prototype.trim` (restricted to ASCII whitespace). -/
def trimChars (l : List Char) : List Char :=
  ((l.dropWhile isWsChar).reverse.dropWhile isWsChar).reverse

/-- Lexicographic (code-unit) comparison of character lists, as JavaScript
compares strings; the date and code strings here are ASCII. -/
def charListLt : List Char → List Char → Bool
  | [], [] => false
  | [], _ :: _ => true
  | _ :: _, [] => false
  | a :: as, b :: bs =>
    if a.toNat < b.toNat then true
    else if b.toNat < a.toNat then false
    else charListLt as bs

def strLt (a b : String) : Bool := charListLt a.data b.data

def strLe (a b : String) : Bool := !(strLt b a)

/-- The regex search `/(\d{4})/`: the four digits starting at the earliest
position where four consecutive digits occur. -/
def firstFourDigits : List Char → Option (List Char)
  | c1 :: c2 :: c3 :: c4 :: rest =>
    if c1.isDigit && c2.isDigit && c3.isDigit && c4.isDigit then some [c1, c2, c3, c4]
    else firstFourDigits (c2 :: c3 :: c4 :: rest)
  | _ => none

/-- `normalizeCode` from the source: trim, then extract the first run of four
consecutive digits via `/(\d{4})/`; empty string when there is none. -/
def normalizeCode (s : String) : String :=
  match firstFourDigits (trimChars s.data) with
  | some cs => String.mk cs
  | none => ""

/-- Modelled from the spec: the claim's wording says the raw code is reduced
to canonical form "by extracting the first embedded digit run"; this function
implements that wording (first maximal run of consecutive digits) for
comparison with the source's `normalizeCode`. -/
def normalizeCodeSpec (s : String) : String :=
  String.mk (((trimChars s.data).dropWhile (fun c => !c.isDigit)).takeWhile Char.isDigit)

/-- One iteration of the record loop in `fetchDailyQuotesAllPages`: normalize
the code, read the date, drop the record silently when either is missing, and
coerce the numeric fields. -/
def normalizeRecord (q : RawQuote) : Option DailyQuote :=
  let code := normalizeCode (q.Code.getD "")
  let dt := q.Date.getD ""
  if code == "" || dt == "" then none
  else some ⟨dt, code, q.Open, q.High, q.Low, q.Close, q.Volume⟩

def normalizeRecords (qs : List RawQuote) : List DailyQuote :=
  qs.filterMap normalizeRecord

/-! ### Pagination (`fetchDailyQuotesAllPages` /
`fetchDailyQuotesByCodeAllPages`, scoreboard route lines 169-279) -/

/-- The pagination loop: each page either fails (non-2xx response, which
throws) or yields raw records that are normalized and appended; a page
followed by further pages means the provider returned a `pagination_key`, and
after `cap` guarded iterations the loop throws its safety stop. -/
def fetchPagesLoop (cap : ℕ) : List (Except String (List RawQuote)) → ℕ → Except String (List DailyQuote)
  | [], _ => .ok []
  | p :: rest, guard =>
    match p with
    | .error e => .error e
    | .ok qs =>
      let recs := normalizeRecords qs
      if rest.isEmpty then .ok recs
      else if cap < guard + 1 then .error ("pagination too long (safety stop)")
      else
        match fetchPagesLoop cap rest (guard + 1) with
        | .error e => .error e
        | .ok more => .ok (recs ++ more)

/-! ### Bar store (`upsertQuotes`, scoreboard route lines 329-362) -/

/-- One row of `prices_daily`; NULL-able numeric columns are `Option`. -/
structure Row where
  code : String
  date : String
  open_ : Option ℚ
  high : Option ℚ
  low : Option ℚ
  close : Option ℚ
  volume : Option ℤ
deriving DecidableEq

def quoteKeyMatches (q : DailyQuote) (r : Row) : Bool :=
  r.code == q.Code && r.date == q.Date

/-- `ON CONFLICT(code, date) DO UPDATE SET …`: overwrite every numeric column
of the conflicting row, keeping the key. -/
def writeRow (q : DailyQuote) (r : Row) : Row :=
  { r with open_ := q.Open, high := q.High, low := q.Low, close := q.Close,
           volume := q.Volume.map jsRound }

/-- Plain `INSERT`: the new row built from the quote (volume rounded as in the
source's `Math.round`). -/
def quoteRow (q : DailyQuote) : Row :=
  ⟨q.Code, q.Date, q.Open, q.High, q.Low, q.Close, q.Volume.map jsRound⟩

/-- The conflict-update applied to an arbitrary row: overwrite when the key
matches, keep the row otherwise. -/
def writeStep (q : DailyQuote) (r : Row) : Row :=
  if quoteKeyMatches q r then writeRow q r else r

/-- One statement of the batch: insert-or-update keyed on (code, date). -/
def upsertOne (s : List Row) (q : DailyQuote) : List Row :=
  if s.any (quoteKeyMatches q) then s.map (writeStep q)
  else s ++ [quoteRow q]

def CHUNK : ℕ := 400

/-- The `for (let i = 0; i < quotes.length; i += CHUNK)` chunking; the first
argument is structural fuel (each step consumes at least one element, so the
list length is enough fuel). -/
def chunksOf : ℕ → List α → List (List α)
  | 0, _ => []
  | _, [] => []
  | fuel + 1, x :: xs => ((x :: xs).take CHUNK) :: chunksOf fuel ((x :: xs).drop CHUNK)

/-- `upsertQuotes`: split the batch into chunks of `CHUNK` rows and apply each
chunk's statements in order. Only the store effect is modelled (the source
additionally returns the affected-row count). -/
def upsertQuotes (s : List Row) (qs : List DailyQuote) : List Row :=
  (chunksOf qs.length qs).foldl (fun st part => part.foldl upsertOne st) s

/-- The fold of every write of a batch applied to a single row: the row ends
with the values of the last quote of the batch whose key matches it. -/
def lastWrite (b : List DailyQuote) (r : Row) : Row :=
  b.foldl (fun r q => writeStep q r) r

def hasKey (s : List Row) (q : DailyQuote) : Bool := s.any (quoteKeyMatches q)

/-! ### Ingestion ledger and sync loops (scoreboard route lines 301-327 and
579-639) -/

/-- `markIngested`: `INSERT OR REPLACE` into `panel_ingest_days` keyed by
date (the timestamp and row count are not modelled). -/
def markIngested (ledger : List String) (d : String) : List String :=
  if ledger.contains d then ledger else ledger ++ [d]

/-- `isIngested`: a completion record exists for the date. -/
def isIngested (ledger : List String) (d : String) : Bool := ledger.contains d

/-- Outcomes of the external world during a sync: the provider's pages for
each trading day (full-universe path) and for each code (filtered path), and
whether the store batch for a loop item succeeds (`dbOk`); when a batch throws
mid-way, `dbPartial` says how many rows had already been applied. -/
structure SyncEnv where
  pages : String → List (Except String (List RawQuote))
  pagesByCode : String → List (Except String (List RawQuote))
  dbOk : String → Bool
  dbPartial : String → ℕ

def fetchDailyQuotesAllPages (env : SyncEnv) (date : String) : Except String (List DailyQuote) :=
  fetchPagesLoop 300 (env.pages date) 0

def fetchDailyQuotesByCodeAllPages (env : SyncEnv) (code : String) : Except String (List DailyQuote) :=
  fetchPagesLoop 200 (env.pagesByCode code) 0

structure SyncState where
  store : List Row
  ledger : List String
deriving DecidableEq

/-- The sequential full-universe per-day loop (scoreboard route lines
623-638): skip days already in the ledger unless `force`; fetch all pages of a
day (a failure throws out of the whole sync); upsert; only then mark the day
ingested.  A thrown error carries the state reached so far. -/
def syncDays (env : SyncEnv) (force : Bool) : List String → SyncState → Except (String × SyncState) SyncState
  | [], st => .ok st
  | d :: ds, st =>
    if force = false && isIngested st.ledger d then syncDays env force ds st
    else
      match fetchDailyQuotesAllPages env d with
      | .error e => .error (e, st)
      | .ok quotes =>
        if env.dbOk d then
          syncDays env force ds ⟨upsertQuotes st.store quotes, markIngested st.ledger d⟩
        else .error ("db error", ⟨upsertQuotes st.store (quotes.take (env.dbPartial d)), st.ledger⟩)

/-- The state reached when the sync loop finishes or throws (the outer
`try`/`catch` observes exactly this state through the database). -/
def resultState : Except (String × SyncState) SyncState → SyncState
  | .ok st => st
  | .error es => es.2

structure CodeSyncState where
  store : List Row
  errors : List String
  fetchedCodes : ℕ
  skipped : ℕ
deriving DecidableEq

/-- The bounded-parallel per-code path (scoreboard route lines 591-611),
modelled at its sequential schedule: the worker's `try`/`catch` turns a
fetch or upsert failure into an error record plus a skip count, and the loop
always continues with the remaining codes.  As in the source, `fetchedCodes`
is incremented before the upsert, so an upsert failure still counts the
code as fetched. -/
def syncByCodes (env : SyncEnv) : List String → CodeSyncState → CodeSyncState
  | [], st => st
  | c :: cs, st =>
    match fetchDailyQuotesByCodeAllPages env c with
    | .error e =>
      syncByCodes env cs
        { st with errors := st.errors ++ [c ++ ":" ++ e], skipped := st.skipped + 1 }
    | .ok quotes =>
      let fetched := if 0 < quotes.length then st.fetchedCodes + 1 else st.fetchedCodes
      if env.dbOk c then
        syncByCodes env cs
          { st with store := upsertQuotes st.store quotes, fetchedCodes := fetched }
      else
        syncByCodes env cs
          { st with store := upsertQuotes st.store (quotes.take (env.dbPartial c)),
                    fetchedCodes := fetched,
                    errors := st.errors ++ [c ++ ":db error"], skipped := st.skipped + 1 }

/-! ### Metrics engine (scoreboard route lines 458-728, scores route lines
374-571, medium-horizon variant lines 200-365 of `src/unnamed/part_005`) -/

/-- A bar as read back from the store after the missing-value filter: all
numeric fields finite, `open ≠ 0`. -/
structure Bar where
  date : String
  open_ : ℚ
  high : ℚ
  low : ℚ
  close : ℚ
  volume : ℚ
deriving DecidableEq

def dummyBar : Bar := ⟨"", 0, 0, 0, 0, 0⟩

/-- `openVolatilityRatio(bar)`: `(high - low) / open`, `NaN` when `open` is
zero. -/
def openVolatilityRatio (bar : Bar) : Option ℚ :=
  if bar.open_ ≠ 0 then some ((bar.high - bar.low) / bar.open_) else none

/-- The `bars.sort((a, b) => a.date < b.date ? -1 : …)` stable sort. -/
def sortBars (bars : List Bar) : List Bar :=
  List.insertionSort (fun a b : Bar => strLe a.date b.date) bars

/-- Minimum history for the intraday factor set:
`Math.max(n_vola + 1, n_vol_short + 1, 2)`. -/
def needIntraday (n_vola n_vol_short : ℕ) : ℕ := max (n_vola + 1) (max (n_vol_short + 1) 2)

/-- Minimum history for the medium-horizon factor set (part_005 line 331):
`Math.max(n_ret + 1, n_mom + 1, 5)`. -/
def needMedium (n_ret n_mom : ℕ) : ℕ := max (n_ret + 1) (max (n_mom + 1) 5)

/-- Modelled from the spec: claim C6's wording derives the medium-horizon
minimum as `max(n_ret + 1, n_mom + 1, n_vol_short + 1, constant floor)`,
i.e. with an `n_vol_short + 1` term; stated here for comparison with the
source's `needMedium`. -/
def needMediumSpec (n_ret n_mom n_vol_short : ℕ) : ℕ :=
  max (n_ret + 1) (max (n_mom + 1) (max (n_vol_short + 1) 5))

/-- The five intraday factors of one code, computed from its (sorted) bar
history exactly as in the source (scoreboard route lines 692-710 and the
identical scores route lines 543-561); `none` is a non-finite value. -/
structure IntradayFactors where
  open_volatility_ratio : Option ℚ
  gap_ratio : Option ℚ
  volatility_spike_ratio : Option ℚ
  intraday_momentum : Option ℚ
  volume_surge_today : Option ℚ
deriving DecidableEq

def intradayFactors (n_vola n_vol_short : ℕ) (bars : List Bar) : IntradayFactors :=
  let last := bars.getD (bars.length - 1) dummyBar
  let prev := bars.getD (bars.length - 2) dummyBar
  let openVol := openVolatilityRatio last
  let gapRatio := if prev.close ≠ 0 then some ((last.open_ - prev.close) / prev.close) else none
  let intradayMomentum :=
    if last.open_ ≠ 0 then some ((last.close - last.open_) / last.open_) else none
  let prevVols := ((bars.take (bars.length - 1)).drop (bars.length - 1 - n_vola)).map openVolatilityRatio
  let volatilitySpikeRatio :=
    match meanOpt prevVols with
    | some m => if m ≠ 0 then openVol.map (· / m) else none
    | none => none
  let prevVolumes := ((bars.take (bars.length - 1)).drop (bars.length - 1 - n_vol_short)).map (·.volume)
  let volumeSurgeToday :=
    match meanQ prevVolumes with
    | some m => if m ≠ 0 then some (last.volume / m) else none
    | none => none
  ⟨openVol, gapRatio, volatilitySpikeRatio, intradayMomentum, volumeSurgeToday⟩

/-- A scored metric row of the scoreboard route: present only when all five
factors are finite (the `continue` at lines 712-718). -/
structure IntradayMetric where
  code : String
  open_volatility_ratio : ℚ
  gap_ratio : ℚ
  volatility_spike_ratio : ℚ
  intraday_momentum : ℚ
  volume_surge_today : ℚ
deriving DecidableEq

/-- A metric row of the scores route: pushed regardless of finiteness
(scores route line 563). -/
structure IntradayMetricOpt where
  code : String
  open_volatility_ratio : Option ℚ
  gap_ratio : Option ℚ
  volatility_spike_ratio : Option ℚ
  intraday_momentum : Option ℚ
  volume_surge_today : Option ℚ
deriving DecidableEq

/-- The scoreboard route's metric loop: sort by date, require the minimum
history, compute the five factors, and exclude the code entirely when any
factor is non-finite. -/
def metricsScoreboard (n_vola n_vol_short : ℕ)
    (entries : List (String × List Bar)) : List IntradayMetric :=
  entries.filterMap fun e =>
    let bars := sortBars e.2
    if bars.length < needIntraday n_vola n_vol_short then none
    else
      let f := intradayFactors n_vola n_vol_short bars
      match f.open_volatility_ratio, f.gap_ratio, f.volatility_spike_ratio,
          f.intraday_momentum, f.volume_surge_today with
      | some a, some b, some c, some d, some v => some ⟨e.1, a, b, c, d, v⟩
      | _, _, _, _, _ => none

/-- The scores route's metric loop: same factors and history check, but the
row is pushed even when some factor is non-finite. -/
def metricsScores (n_vola n_vol_short : ℕ)
    (entries : List (String × List Bar)) : List IntradayMetricOpt :=
  entries.filterMap fun e =>
    let bars := sortBars e.2
    if bars.length < needIntraday n_vola n_vol_short then none
    else
      let f := intradayFactors n_vola n_vol_short bars
      some ⟨e.1, f.open_volatility_ratio, f.gap_ratio, f.volatility_spike_ratio,
        f.intraday_momentum, f.volume_surge_today⟩

/-- A metric row of the medium-horizon variant (part_005 lines 320-365):
pushed regardless of finiteness once the history check passes. -/
structure MediumMetric where
  code : String
  ret_mean : Option ℚ
  volchg_ratio : Option ℚ
  volat_rto_mean : Option ℚ
  mom_n_days : Option ℚ
deriving DecidableEq

/-- Day-over-day close returns `cur/prev - 1` over consecutive bars, skipping
pairs whose previous close is zero (part_005 lines 335-340). -/
def consecRets (bars : List Bar) : List ℚ :=
  (bars.zip (bars.drop 1)).filterMap fun pc =>
    if pc.1.close ≠ 0 then some (pc.2.close / pc.1.close - 1) else none

/-- The medium-horizon factors of one code (part_005 lines 334-362). -/
def mediumFactors (n_ret n_vol_short n_vol_long n_vola n_mom : ℕ)
    (bars : List Bar) : MediumMetric :=
  let ret_mean := meanQ (lastN n_ret (consecRets bars))
  let vols := bars.map (·.volume)
  let short := meanQ (lastN n_vol_short vols)
  let long :=
    if n_vol_short + 5 ≤ vols.length then meanQ (lastN n_vol_long (dropLastN n_vol_short vols))
    else meanQ (vols.take (max 1 (vols.length / 2)))
  let volchg_ratio :=
    match long with
    | some lv => if lv ≠ 0 then short.map (· / lv) else none
    | none => none
  let rto := bars.map fun b => if b.open_ ≠ 0 then some ((b.high - b.low) / b.open_) else none
  let volat_rto_mean := meanOpt (lastN n_vola rto)
  let lastClose := (bars.getD (bars.length - 1) dummyBar).close
  let prevClose := (bars.getD (bars.length - 1 - n_mom) dummyBar).close
  let mom_n_days := if prevClose ≠ 0 then some (lastClose / prevClose - 1) else none
  ⟨"", ret_mean, volchg_ratio, volat_rto_mean, mom_n_days⟩

/-- The medium-horizon metric loop. -/
def metricsMedium (n_ret n_vol_short n_vol_long n_vola n_mom : ℕ)
    (entries : List (String × List Bar)) : List MediumMetric :=
  entries.filterMap fun e =>
    let bars := sortBars e.2
    if bars.length < needMedium n_ret n_mom then none
    else some { mediumFactors n_ret n_vol_short n_vol_long n_vola n_mom bars with code := e.1 }

/-! ### Composite scorer and ranker (scoreboard route lines 511-516 and
730-779; scores route lines 422-427 and 573-613) -/

structure Weights5 where
  w_openvol : ℚ
  w_gap : ℚ
  w_spike : ℚ
  w_intraday : ℚ
  w_volsurge : ℚ
deriving DecidableEq

/-- `w_sum = Math.max(1e-9, w_openvol + w_gap + w_spike + w_intraday +
w_volsurge)`. -/
def wSum5 (w : Weights5) : ℚ :=
  max (1 / 1000000000) (w.w_openvol + w.w_gap + w.w_spike + w.w_intraday + w.w_volsurge)

/-- `percentileMap.get(v) ?? 0` for a finite key. -/
def normLookup (m : List (ℚ × ℚ)) (v : ℚ) : ℚ := (mapGet m v).getD 0

/-- `percentileMap.get(v) ?? 0` where `v` may be non-finite: a non-finite key
is never present in a map built from the finite-filtered value list, so it
falls back to `0`. -/
def normLookupOpt (m : List (ℚ × ℚ)) (v : Option ℚ) : ℚ :=
  match v with
  | some x => (mapGet m x).getD 0
  | none => 0

structure PMaps5 where
  pOpenVol : List (ℚ × ℚ)
  pGap : List (ℚ × ℚ)
  pSpike : List (ℚ × ℚ)
  pIntraday : List (ℚ × ℚ)
  pVolSurge : List (ℚ × ℚ)

/-- The five percentile maps of the scoreboard route (lines 730-740); the
`filter(Number.isFinite)` is vacuous there because non-finite rows were
excluded. -/
def pmapsScoreboard (metrics : List IntradayMetric) : PMaps5 :=
  ⟨percentile01 (metrics.map (·.open_volatility_ratio)),
   percentile01 (metrics.map (·.gap_ratio)),
   percentile01 (metrics.map (·.volatility_spike_ratio)),
   percentile01 (metrics.map (·.intraday_momentum)),
   percentile01 (metrics.map (·.volume_surge_today))⟩

/-- The five percentile maps of the scores route (lines 573-583): built from
the finite values only. -/
def pmapsScores (metrics : List IntradayMetricOpt) : PMaps5 :=
  ⟨percentile01 (metrics.filterMap (·.open_volatility_ratio)),
   percentile01 (metrics.filterMap (·.gap_ratio)),
   percentile01 (metrics.filterMap (·.volatility_spike_ratio)),
   percentile01 (metrics.filterMap (·.intraday_momentum)),
   percentile01 (metrics.filterMap (·.volume_surge_today))⟩

/-- The composite blend of the scoreboard route (lines 753-759). -/
def scoreScoreboard (w : Weights5) (p : PMaps5) (m : IntradayMetric) : ℚ :=
  (w.w_openvol * normLookup p.pOpenVol m.open_volatility_ratio
    + w.w_gap * normLookup p.pGap m.gap_ratio
    + w.w_spike * normLookup p.pSpike m.volatility_spike_ratio
    + w.w_intraday * normLookup p.pIntraday m.intraday_momentum
    + w.w_volsurge * normLookup p.pVolSurge m.volume_surge_today) / wSum5 w

/-- The composite blend of the scores route (lines 585-599): non-finite
factors fall back to percentile `0` via `?? 0`. -/
def scoreScores (w : Weights5) (p : PMaps5) (m : IntradayMetricOpt) : ℚ :=
  (w.w_openvol * normLookupOpt p.pOpenVol m.open_volatility_ratio
    + w.w_gap * normLookupOpt p.pGap m.gap_ratio
    + w.w_spike * normLookupOpt p.pSpike m.volatility_spike_ratio
    + w.w_intraday * normLookupOpt p.pIntraday m.intraday_momentum
    + w.w_volsurge * normLookupOpt p.pVolSurge m.volume_surge_today) / wSum5 w

structure Weights4 where
  w_ret : ℚ
  w_volchg : ℚ
  w_volat : ℚ
  w_mom : ℚ
deriving DecidableEq

def wSum4 (w : Weights4) : ℚ :=
  max (1 / 1000000000) (w.w_ret + w.w_volchg + w.w_volat + w.w_mom)

structure PMaps4 where
  pRet : List (ℚ × ℚ)
  pVolchg : List (ℚ × ℚ)
  pVolat : List (ℚ × ℚ)
  pMom : List (ℚ × ℚ)

def pmapsMedium (metrics : List MediumMetric) : PMaps4 :=
  ⟨percentile01 (metrics.filterMap (·.ret_mean)),
   percentile01 (metrics.filterMap (·.volchg_ratio)),
   percentile01 (metrics.filterMap (·.volat_rto_mean)),
   percentile01 (metrics.filterMap (·.mom_n_days))⟩

/-- The medium-horizon blend (part_005 lines 380-385): each non-finite factor
normalizes to `0` via `Number.isFinite(x) ? (map.get(x) ?? 0) : 0`. -/
def scoreMedium (w : Weights4) (p : PMaps4) (m : MediumMetric) : ℚ :=
  (w.w_ret * normLookupOpt p.pRet m.ret_mean
    + w.w_volchg * normLookupOpt p.pVolchg m.volchg_ratio
    + w.w_volat * normLookupOpt p.pVolat m.volat_rto_mean
    + w.w_mom * normLookupOpt p.pMom m.mom_n_days) / wSum4 w

structure ScoredItem where
  rank : ℕ
  code : String
  score : ℚ
deriving DecidableEq

/-- `ToIntegerOrInfinity` of the slice bound: `NaN` keeps nothing; a positive
fractional bound truncates.  In the pipeline the bound is either `NaN` or a
value clamped to at least 10, so truncation toward zero is the floor. -/
def sliceCount : Option ℚ → ℕ
  | none => 0
  | some q => if q ≤ 0 then 0 else (⌊q⌋).toNat

/-- `.sort((a, b) => b.score - a.score).slice(0, limit).map((x, i) =>
({rank: i + 1, …}))` — stable descending sort, truncate, 1-based rank. -/
def rankItems (limit : Option ℚ) (scored : List (String × ℚ)) : List ScoredItem :=
  let sorted := List.insertionSort (fun a b : String × ℚ => b.2 ≤ a.2) scored
  (sorted.take (sliceCount limit)).enum.map fun ix => ⟨ix.1 + 1, ix.2.1, ix.2.2⟩

/-! ### Request parsing, validation, and the full scoreboard GET pipeline
(scoreboard route lines 487-826) -/

structure Ymd where
  y : ℕ
  m : ℕ
  d : ℕ
deriving DecidableEq

def isLeap (y : ℕ) : Bool := (y % 4 == 0 && y % 100 != 0) || y % 400 == 0

def daysInMonth (y m : ℕ) : ℕ :=
  if m == 2 then (if isLeap y then 29 else 28)
  else if m == 4 || m == 6 || m == 9 || m == 11 then 30
  else 31

def digitVal (c : Char) : ℕ := c.toNat - 48

/-- `new Date(s + "T00:00:00")` validity and field extraction, for strings in
the `YYYY-MM-DD` shape (the only shape the route builds or documents);
anything else is an Invalid Date here. -/
def parseYMD (s : String) : Option Ymd :=
  match s.data with
  | [y1, y2, y3, y4, s1, m1, m2, s2, d1, d2] =>
    if y1.isDigit && y2.isDigit && y3.isDigit && y4.isDigit && s1 == '-'
        && m1.isDigit && m2.isDigit && s2 == '-' && d1.isDigit && d2.isDigit then
      let y := ((digitVal y1 * 10 + digitVal y2) * 10 + digitVal y3) * 10 + digitVal y4
      let mo := digitVal m1 * 10 + digitVal m2
      let da := digitVal d1 * 10 + digitVal d2
      if 1 ≤ mo && mo ≤ 12 && 1 ≤ da && da ≤ daysInMonth y mo then some ⟨y, mo, da⟩
      else none
    else none
  | _ => none

def pad2 (n : ℕ) : String := if n < 10 then "0" ++ toString n else toString n

/-- `ymd(date)`: `${yyyy}-${mm}-${dd}` with zero-padded month and day. -/
def ymd (d : Ymd) : String := toString d.y ++ "-" ++ pad2 d.m ++ "-" ++ pad2 d.d

def ymdLt (a b : Ymd) : Bool :=
  a.y < b.y || (a.y == b.y && (a.m < b.m || (a.m == b.m && a.d < b.d)))

/-- `addMonths(base, months)`: `setMonth` with year borrow, then the
`setDate(0)` day-overflow correction, which clamps the day to the last day of
the intended month. -/
def addMonths (base : Ymd) (months : ℤ) : Ymd :=
  let t : ℤ := (base.m : ℤ) - 1 + months
  let y2 : ℕ := ((base.y : ℤ) + t.ediv 12).toNat
  let m2 : ℕ := (t.emod 12).toNat + 1
  ⟨y2, m2, min base.d (daysInMonth y2 m2)⟩

def parseDigitsAux : List Char → ℕ → Option ℕ
  | [], acc => some acc
  | c :: cs, acc => if c.isDigit then parseDigitsAux cs (acc * 10 + digitVal c) else none

/-- `Number(s)` for the decimal shapes the route receives (optional sign,
digits, optional fraction); `none` models `NaN`, and the empty or
whitespace-only string coerces to `0`. -/
def jsNumber (s : String) : Option ℚ :=
  match trimChars s.data with
  | [] => some 0
  | l =>
    let sign : Bool := l.headD ' ' == '-'
    let l2 := if sign then l.drop 1 else l
    let intPart := l2.takeWhile Char.isDigit
    let rest := l2.dropWhile Char.isDigit
    let intVal : Option ℕ := if intPart.isEmpty then none else parseDigitsAux intPart 0
    let mag : Option ℚ :=
      match rest with
      | [] => intVal.map (fun n => (n : ℚ))
      | '.' :: frac =>
        if frac.all Char.isDigit && !(intPart.isEmpty && frac.isEmpty) then
          match parseDigitsAux frac 0 with
          | some f => some ((intVal.getD 0 : ℚ) + (f : ℚ) / ((10 : ℚ) ^ frac.length))
          | none => none
        else none
      | _ => none
    mag.map (fun q => if sign then -q else q)

/-- `Math.min(bound, x)` with NaN propagation. -/
def jsMin (bound : ℚ) : Option ℚ → Option ℚ
  | none => none
  | some q => some (min bound q)

/-- `Math.max(bound, x)` with NaN propagation. -/
def jsMax (bound : ℚ) : Option ℚ → Option ℚ
  | none => none
  | some q => some (max bound q)

/-- The raw query parameters of the route that participate in validation,
clamping and filtering.  `n_vola`/`n_vol_short` and the weights are carried
as already-parsed values (their query strings are numeric wherever the claims
speak about them). -/
structure ReqParams where
  to_ : Option String
  from_ : Option String
  monthsBack : Option String
  limit : Option String
  sync : Option String
  force : Option String
  marketCap : Option String
  marketCapMode : Option String
  n_vol_short : ℕ
  n_vola : ℕ
  weights : Weights5

structure ParsedReq where
  from_ : String
  to_ : String
  fromD : Ymd
  toD : Ymd
  monthsBack : Option ℚ
  limit : Option ℚ
  sync : Bool
  force : Bool
  n_vol_short : ℕ
  n_vola : ℕ
  weights : Weights5
  marketCap : Option ℚ
  marketCapMode : String
deriving DecidableEq

/-- `Math.max(1, Math.min(24, Number(searchParams.get("monthsBack") ?? "3")))`
(line 498). -/
def monthsBackVal (p : ReqParams) : Option ℚ :=
  jsMax 1 (jsMin 24 (jsNumber (p.monthsBack.getD "3")))

/-- `Math.max(10, Math.min(500, Number(searchParams.get("limit") ?? "100")))`
(line 499): a non-numeric `limit` propagates `NaN` through both clamps. -/
def limitVal (p : ReqParams) : Option ℚ :=
  jsMax 10 (jsMin 500 (jsNumber (p.limit.getD "100")))

/-- The `from` string the route validates (lines 512-521): the query value if
given, else `to` shifted back by the clamped `monthsBack` (a `NaN` shift turns
the derived string into an Invalid-Date shape). -/
def fromValueOf (today : Ymd) (p : ReqParams) (toD : Ymd) : String :=
  match p.from_ with
  | some s => s
  | none =>
    match monthsBackVal p with
    | none => "NaN-NaN-NaN"
    | some q => ymd (addMonths toD (-⌊q⌋))

/-- The parameter-parsing and validation prefix of `GET` (lines 497-534),
in source order: defaults, clamps, then the three 400-responses for an
invalid `to`, an invalid `from`, and `from > to`. -/
def parseParams (today : Ymd) (p : ReqParams) : Except String ParsedReq :=
  match parseYMD (p.to_.getD (ymd today)) with
  | none => .error ("invalid to (YYYY-MM-DD)")
  | some toD =>
    match parseYMD (fromValueOf today p toD) with
    | none => .error ("invalid from (YYYY-MM-DD)")
    | some fromD =>
      if ymdLt toD fromD then .error ("from must be <= to")
      else .ok ⟨ymd fromD, p.to_.getD (ymd today), fromD, toD, monthsBackVal p,
        limitVal p, (p.sync.getD "1") ≠ "0", (p.force.getD "0") == "1",
        max 1 (min 60 p.n_vol_short), max 1 (min 60 p.n_vola), p.weights,
        jsNumber (p.marketCap.getD ""), p.marketCapMode.getD "over"⟩

/-- The external world of one request: auth and calendar outcomes, the sync
environment, the company/market-cap reference mapping, and the store and
ledger contents before the request. -/
structure Env where
  auth : Except String Unit
  tradingDays : Except String (List String)
  sync : SyncEnv
  companyRows : List (String × Option ℚ)
  store0 : List Row
  ledger0 : List String

/-- The market-cap universe filter (lines 531-534 and 562-574): active only
for a finite positive threshold and a recognized mode; a row without a finite
`MarketCap` is never allowed. -/
def allowedCodesOf (env : Env) (pr : ParsedReq) : Option (List String) :=
  match pr.marketCap with
  | some v =>
    if 0 < v && (pr.marketCapMode == "over" || pr.marketCapMode == "under") then
      some (env.companyRows.filterMap fun cr =>
        match cr.2 with
        | some cap =>
          if (if pr.marketCapMode == "under" then cap ≤ v else v ≤ cap) then some cr.1 else none
        | none => none)
    else none
  | none => none

def rowInRange (from_ to_ : String) (r : Row) : Bool := strLe from_ r.date && strLe r.date to_

/-- `SELECT … WHERE date >= ? AND date <= ? ORDER BY code, date`. -/
def readback (store : List Row) (from_ to_ : String) : List Row :=
  List.insertionSort
    (fun a b : Row => strLt a.code b.code || (a.code == b.code && strLe a.date b.date))
    (store.filter (rowInRange from_ to_))

def addBarTo : List (String × List Bar) → String → Bar → List (String × List Bar)
  | [], code, bar => [(code, [bar])]
  | (c, bs) :: rest, code, bar =>
    if c == code then (c, bs ++ [bar]) :: rest else (c, bs) :: addBarTo rest code bar

/-- The `byCode` grouping (lines 654-674): re-normalize the stored code, apply
the universe filter, coerce NULL numeric columns with `Number(null) = 0`
(volume NULL is `NaN` instead), drop rows with a non-finite volume or a zero
open, and append the bar to its code's history in insertion order. -/
def groupRows (allowed : Option (List String)) (rows : List Row) : List (String × List Bar) :=
  rows.foldl
    (fun acc r =>
      let code := normalizeCode r.code
      if code == "" then acc
      else if (match allowed with | some al => !(al.contains code) | none => false) then acc
      else
        match r.volume with
        | none => acc
        | some vol =>
          let op := r.open_.getD 0
          if op == 0 then acc
          else addBarTo acc code ⟨r.date, op, r.high.getD 0, r.low.getD 0, r.close.getD 0, (vol : ℚ)⟩)
    []

/-- The route's response, reduced to the fields the claims speak about. -/
inductive Resp where
  | ok (items : List ScoredItem) (barsInDb scoredCodes : ℕ)
  | badRequest (msg : String)
  | serverError (msg : String)
deriving DecidableEq

/-- The whole `GET` of the scoreboard route: validate, sync (per-code when a
market-cap filter narrows the universe, else the ledger-driven per-day loop),
read back the window, group, compute metrics, normalize, blend, rank and
truncate.  Thrown errors surface as the 500-response of the outer
`try`/`catch`. -/
def scoreboardGET (env : Env) (today : Ymd) (p : ReqParams) : Resp :=
  match parseParams today p with
  | .error msg => .badRequest msg
  | .ok pr =>
    let allowed := allowedCodesOf env pr
    let syncRes : Except String SyncState :=
      if pr.sync then
        match env.auth with
        | .error e => .error e
        | .ok _ =>
          match allowed with
          | some codes =>
            .ok ⟨(syncByCodes env.sync codes ⟨env.store0, [], 0, 0⟩).store, env.ledger0⟩
          | none =>
            match env.tradingDays with
            | .error e => .error e
            | .ok days =>
              match syncDays env.sync pr.force days ⟨env.store0, env.ledger0⟩ with
              | .error ee => .error ee.1
              | .ok st => .ok st
      else .ok ⟨env.store0, env.ledger0⟩
    match syncRes with
    | .error e => .serverError e
    | .ok st =>
      let rows := readback st.store pr.from_ pr.to_
      let entries := groupRows allowed rows
      let metrics := metricsScoreboard pr.n_vola pr.n_vol_short entries
      let pm := pmapsScoreboard metrics
      let scored := metrics.map fun m => (m.code, scoreScoreboard pr.weights pm m)
      .ok (rankItems pr.limit scored) rows.length metrics.length

/-- The `catch` branch of the per-code worker: record the error string and
bump the skip counter, touching nothing else. -/
def recordFailure (c e : String) (st : CodeSyncState) : CodeSyncState :=
  { st with errors := st.errors ++ [c ++ ":" ++ e], skipped := st.skipped + 1 }

/-- The `catch` branch of the per-code worker when the store batch throws
after a successful fetch (the `dbOk = false` arm of `syncByCodes`): keep the
rows the batch had already applied, still count the code as fetched, record
the error and bump the skip counter. -/
def dbFailStep (env : SyncEnv) (c : String) (quotes : List DailyQuote)
    (st : CodeSyncState) : CodeSyncState :=
  { st with store := upsertQuotes st.store (quotes.take (env.dbPartial c)),
            fetchedCodes := if 0 < quotes.length then st.fetchedCodes + 1 else st.fetchedCodes,
            errors := st.errors ++ [c ++ ":db error"],
            skipped := st.skipped + 1 }

theorem mapGet_cons (x : ℚ × ℚ) (m : List (ℚ × ℚ)) (k : ℚ) :
    mapGet (x :: m) k = if x.1 = k then some x.2 else mapGet m k := by
  by_cases h : x.1 = k <;> simp [mapGet, List.find?, h]

theorem runLen_le (v : ℚ) : ∀ l : List ℚ, runLen v l ≤ l.length := by
  intro l
  induction l with
  | nil => simp [runLen]
  | cons x xs ih =>
    by_cases h : x = v <;> simp [runLen, h] <;> omega

theorem mem_take_runLen (v : ℚ) :
    ∀ (l : List ℚ) (c : ℚ), c ∈ l.take (runLen v l) → c = v := by
  intro l
  induction l with
  | nil => intro c hc; simp at hc
  | cons x xs ih =>
    intro c hc
    by_cases h : x = v
    · rw [runLen, if_pos h] at hc
      rcases List.mem_cons.mp (by simpa using hc) with h1 | h1
      · exact h1.trans h
      · exact ih c h1
    · rw [runLen, if_neg h] at hc
      simp at hc

theorem countEq_pos_of_mem {v : ℚ} {l : List ℚ} (h : v ∈ l) : 0 < countEq v l := by
  have : l.countP (fun w => decide (w = v)) > 0 :=
    List.countP_pos.mpr ⟨v, h, by simp⟩
  simpa [countEq] using this

theorem countLt_add_countEq_le (v : ℚ) : ∀ l : List ℚ, countLt v l + countEq v l ≤ l.length := by
  intro l
  induction l with
  | nil => simp [countLt, countEq]
  | cons x xs ih =>
    simp only [countLt, countEq, List.countP_cons, List.length_cons] at *
    by_cases hlt : x < v
    · have hne : ¬ (x = v) := ne_of_lt hlt
      simp [hlt, hne]; omega
    · by_cases heq : x = v
      · simp [hlt, heq]; omega
      · simp [hlt, heq]; omega

theorem countLt_eq_zero_of_min {v : ℚ} {l : List ℚ} (h : ∀ w ∈ l, v ≤ w) :
    countLt v l = 0 := by
  simp only [countLt, List.countP_eq_zero]
  intro w hw
  simpa using not_lt_of_le (h w hw)

theorem countLt_add_countEq_of_max {v : ℚ} : ∀ {l : List ℚ}, (∀ w ∈ l, w ≤ v) →
    countLt v l + countEq v l = l.length := by
  intro l
  induction l with
  | nil => simp [countLt, countEq]
  | cons x xs ih =>
    intro h
    have hx : x ≤ v := h x (by simp)
    have hxs : ∀ w ∈ xs, w ≤ v := fun w hw => h w (by simp [hw])
    simp only [countLt, countEq, List.countP_cons, List.length_cons] at *
    rcases lt_or_eq_of_le hx with hlt | heq
    · have hne : ¬ (x = v) := ne_of_lt hlt
      simp [hlt, hne]
      have := ih hxs
      omega
    · have hnlt : ¬ (x < v) := by simp [heq]
      simp [hnlt, heq]
      have := ih hxs
      omega

theorem countEq_eq_zero_of_all_gt {v : ℚ} {l : List ℚ} (h : ∀ w ∈ l, v < w) :
    countEq v l = 0 := by
  simp only [countEq, List.countP_eq_zero]
  intro w hw
  have := h w hw
  simp only [decide_eq_true_eq]
  intro he
  exact absurd he (ne_of_gt this)

theorem countEq_eq_runLen_of_sorted {v : ℚ} :
    ∀ {l : List ℚ}, List.Sorted (· ≤ ·) l → (∀ w ∈ l, v ≤ w) →
      countEq v l = runLen v l := by
  intro l
  induction l with
  | nil => simp [countEq, runLen]
  | cons y ys ih =>
    intro hs hall
    have hy : v ≤ y := hall y (by simp)
    have hys : List.Sorted (· ≤ ·) ys := (List.sorted_cons.mp hs).2
    have hyall : ∀ w ∈ ys, y ≤ w := (List.sorted_cons.mp hs).1
    by_cases h : y = v
    · have : ∀ w ∈ ys, v ≤ w := fun w hw => h ▸ hyall w hw
      simp only [countEq, List.countP_cons, runLen, h, if_pos rfl]
      have := ih hys this
      simp only [countEq] at this
      simp [this]
    · have hlt : v < y := lt_of_le_of_ne hy (fun he => h he.symm)
      have hgt : ∀ w ∈ ys, v < w := fun w hw => lt_of_lt_of_le hlt (hyall w hw)
      have h0 : countEq v ys = 0 := countEq_eq_zero_of_all_gt hgt
      have hne : ¬ (y = v) := h
      simp only [countEq, List.countP_cons, runLen, if_neg hne] at *
      simp [h0, hne]

theorem rankSum_eq_zero {v : ℚ} : ∀ {l : List ℚ}, countEq v l = 0 → ∀ p, rankSum v l p = 0 := by
  intro l
  induction l with
  | nil => intro _ p; simp [rankSum]
  | cons x xs ih =>
    intro h p
    simp only [countEq, List.countP_cons] at h
    by_cases hx : x = v
    · simp [hx] at h
    · simp only [rankSum, if_neg hx, zero_add]
      exact ih (by simpa [countEq, hx] using h) (p + 1)

theorem rankSum_sorted {v : ℚ} :
    ∀ {l : List ℚ}, List.Sorted (· ≤ ·) l → ∀ p : ℕ,
      ((rankSum v l p : ℕ) : ℚ) =
        (countEq v l : ℚ) * ((p : ℚ) + (countLt v l : ℚ))
          + (countEq v l : ℚ) * ((countEq v l : ℚ) - 1) / 2 := by
  intro l
  induction l with
  | nil => intro _ p; simp [rankSum, countEq, countLt]
  | cons x xs ih =>
    intro hs p
    have hxs : List.Sorted (· ≤ ·) xs := (List.sorted_cons.mp hs).2
    have hall : ∀ w ∈ xs, x ≤ w := (List.sorted_cons.mp hs).1
    by_cases hx : x = v
    · subst hx
      have h0 : countLt x (x :: xs) = 0 := by
        apply countLt_eq_zero_of_min
        intro w hw
        rcases List.mem_cons.mp hw with h | h
        · rw [h]
        · exact hall w h
      have h0' : countLt x xs = 0 := countLt_eq_zero_of_min hall
      have hEcons : countEq x (x :: xs) = countEq x xs + 1 := by
        simp [countEq, List.countP_cons]
      have hIH := ih hxs (p + 1)
      rw [h0'] at hIH
      push_cast at hIH
      simp only [rankSum, if_pos rfl]
      rw [hEcons, h0]
      push_cast
      rw [hIH]
      ring
    · by_cases hlt : x < v
      · have hLcons : countLt v (x :: xs) = countLt v xs + 1 := by
          simp [countLt, List.countP_cons, hlt]
        have hEcons : countEq v (x :: xs) = countEq v xs := by
          simp [countEq, List.countP_cons, hx]
        have hIH := ih hxs (p + 1)
        simp only [rankSum, if_neg hx, zero_add]
        rw [hEcons, hLcons]
        push_cast at hIH ⊢
        rw [hIH]
        ring
      · have hvx : v < x := by
          rcases lt_trichotomy v x with h | h | h
          · exact h
          · exact absurd h.symm hx
          · exact absurd h hlt
        have hgt : ∀ w ∈ x :: xs, v < w := by
          intro w hw
          rcases List.mem_cons.mp hw with h | h
          · rw [h]; exact hvx
          · exact lt_of_lt_of_le hvx (hall w h)
        have h0 : countEq v (x :: xs) = 0 := countEq_eq_zero_of_all_gt hgt
        rw [rankSum_eq_zero h0 p, h0]
        push_cast
        ring

theorem countLt_take_runLen {v x : ℚ} (xs : List ℚ) (hlt : x < v) :
    countLt v (xs.take (runLen x xs)) = runLen x xs := by
  have hlen : (xs.take (runLen x xs)).length = runLen x xs := by
    rw [List.length_take]
    exact min_eq_left (runLen_le x xs)
  rw [countLt]
  conv_rhs => rw [← hlen]
  apply List.countP_eq_length.mpr
  intro a ha
  have := mem_take_runLen x xs a ha
  simp [this, hlt]

theorem countEq_take_runLen {v x : ℚ} (xs : List ℚ) (hne : x ≠ v) :
    countEq v (xs.take (runLen x xs)) = 0 := by
  rw [countEq]
  apply List.countP_eq_zero.mpr
  intro a ha
  have := mem_take_runLen x xs a ha
  simp [this, hne]

theorem countLt_cons_decomp {v x : ℚ} (xs : List ℚ) (hlt : x < v) :
    countLt v (x :: xs) = (runLen x xs + 1) + countLt v (xs.drop (runLen x xs)) := by
  have hsplit : countLt v xs
      = countLt v (xs.take (runLen x xs)) + countLt v (xs.drop (runLen x xs)) := by
    unfold countLt
    conv_lhs => rw [← List.take_append_drop (runLen x xs) xs]
    rw [List.countP_append]
  have hcons : countLt v (x :: xs) = countLt v xs + 1 := by
    simp [countLt, List.countP_cons, hlt]
  rw [hcons, hsplit, countLt_take_runLen xs hlt]
  omega

theorem countEq_cons_drop {v x : ℚ} (xs : List ℚ) (hne : x ≠ v) :
    countEq v (x :: xs) = countEq v (xs.drop (runLen x xs)) := by
  have hsplit : countEq v xs
      = countEq v (xs.take (runLen x xs)) + countEq v (xs.drop (runLen x xs)) := by
    unfold countEq
    conv_lhs => rw [← List.take_append_drop (runLen x xs) xs]
    rw [List.countP_append]
  have hcons : countEq v (x :: xs) = countEq v xs := by
    simp [countEq, List.countP_cons, hne]
  rw [hcons, hsplit, countEq_take_runLen xs hne]
  omega

theorem countEq_head_sorted {x : ℚ} {xs : List ℚ} (hs : List.Sorted (· ≤ ·) (x :: xs)) :
    countEq x (x :: xs) = runLen x xs + 1 := by
  have hxs : List.Sorted (· ≤ ·) xs := (List.sorted_cons.mp hs).2
  have hall : ∀ w ∈ xs, x ≤ w := (List.sorted_cons.mp hs).1
  have : countEq x xs = runLen x xs := countEq_eq_runLen_of_sorted hxs hall
  simp [countEq, List.countP_cons] at *
  omega

theorem mem_drop_of_ne {v x : ℚ} {xs : List ℚ} (hv : v ∈ xs) (hne : v ≠ x) :
    v ∈ xs.drop (runLen x xs) := by
  have hsplit := List.take_append_drop (runLen x xs) xs
  rcases List.mem_append.mp (hsplit ▸ hv) with h | h
  · exact absurd (mem_take_runLen x xs v h) hne
  · exact h

theorem head_lt_of_mem {v x : ℚ} {xs : List ℚ} (hs : List.Sorted (· ≤ ·) (x :: xs))
    (hv : v ∈ x :: xs) (hne : v ≠ x) : x < v := by
  rcases List.mem_cons.mp hv with h | h
  · exact absurd h hne
  · exact lt_of_le_of_ne ((List.sorted_cons.mp hs).1 v h) (fun he => hne he.symm)

theorem pctAux_lookup (n : ℚ) :
    ∀ (fuel : ℕ) (s : List ℚ), s.length ≤ fuel → List.Sorted (· ≤ ·) s →
      ∀ (i : ℕ) (v : ℚ), v ∈ s →
        mapGet (pctAux n fuel i s) v =
          some (((((i + countLt v s : ℕ) : ℚ) + 1 + ((i + countLt v s + countEq v s : ℕ) : ℚ)) / 2) / n) := by
  intro fuel
  induction fuel with
  | zero =>
    intro s hlen _ i v hv
    rcases s with _ | ⟨x, xs⟩
    · simp at hv
    · simp at hlen
  | succ m ih =>
    intro s hlen hs i v hv
    rcases s with _ | ⟨x, xs⟩
    · simp at hv
    · simp only [pctAux, mapGet_cons]
      by_cases hxv : x = v
      · subst hxv
        rw [if_pos rfl]
        have h0 : countLt x (x :: xs) = 0 := by
          apply countLt_eq_zero_of_min
          intro w hw
          rcases List.mem_cons.mp hw with h | h
          · rw [h]
          · exact (List.sorted_cons.mp hs).1 w h
        have hE : countEq x (x :: xs) = runLen x xs + 1 := countEq_head_sorted hs
        rw [h0, hE]
        congr 1
        push_cast
        ring
      · rw [if_neg hxv]
        have hvne : v ≠ x := fun h => hxv h.symm
        have hxlt : x < v := head_lt_of_mem hs hv hvne
        have hvxs : v ∈ xs := by
          rcases List.mem_cons.mp hv with h | h
          · exact absurd h hvne
          · exact h
        have hvdrop : v ∈ xs.drop (runLen x xs) := mem_drop_of_ne hvxs hvne
        have hdroplen : (xs.drop (runLen x xs)).length ≤ m := by
          simp only [List.length_drop]
          have : xs.length ≤ m := by
            simpa using Nat.le_of_succ_le_succ (by simpa using hlen)
          omega
        have hsorted' : List.Sorted (· ≤ ·) (xs.drop (runLen x xs)) :=
          List.Pairwise.sublist (List.drop_sublist _ _) (List.sorted_cons.mp hs).2
        rw [ih _ hdroplen hsorted' (i + runLen x xs + 1) v hvdrop]
        have e1 : i + runLen x xs + 1 + countLt v (xs.drop (runLen x xs))
            = i + countLt v (x :: xs) := by
          rw [countLt_cons_decomp xs hxlt]
          omega
        have e2 : countEq v (xs.drop (runLen x xs)) = countEq v (x :: xs) :=
          (countEq_cons_drop xs hxv).symm
        rw [e2, e1]

theorem pctAux_mem (n : ℚ) :
    ∀ (fuel : ℕ) (s : List ℚ), s.length ≤ fuel →
      ∀ (i : ℕ) (v q : ℚ), mapGet (pctAux n fuel i s) v = some q → v ∈ s := by
  intro fuel
  induction fuel with
  | zero =>
    intro s hlen i v q h
    rcases s with _ | ⟨x, xs⟩
    · simp [pctAux, mapGet] at h
    · simp at hlen
  | succ m ih =>
    intro s hlen i v q h
    rcases s with _ | ⟨x, xs⟩
    · simp [pctAux, mapGet] at h
    · simp only [pctAux, mapGet_cons] at h
      by_cases hxv : x = v
      · simp [hxv]
      · rw [if_neg hxv] at h
        have hdroplen : (xs.drop (runLen x xs)).length ≤ m := by
          simp only [List.length_drop]
          have : xs.length ≤ m := by
            simpa using Nat.le_of_succ_le_succ (by simpa using hlen)
          omega
        have := ih _ hdroplen _ v q h
        have hmem : v ∈ xs := List.mem_of_mem_drop this
        simp [hmem]

theorem percentile01_lookup {l : List ℚ} {v : ℚ} (hv : v ∈ l) :
    mapGet (percentile01 l) v =
      some (((2 * (countLt v l : ℚ) + (countEq v l : ℚ) + 1) / 2) / (l.length : ℚ)) := by
  have hsorted := List.sorted_insertionSort (· ≤ ·) l
  have hperm := List.perm_insertionSort (· ≤ ·) l
  have hv' : v ∈ List.insertionSort (· ≤ ·) l := hperm.mem_iff.mpr hv
  have hL : countLt v (List.insertionSort (· ≤ ·) l) = countLt v l := hperm.countP_eq _
  have hE : countEq v (List.insertionSort (· ≤ ·) l) = countEq v l := hperm.countP_eq _
  have h := pctAux_lookup (l.length : ℚ) l.length
    (List.insertionSort (· ≤ ·) l) (le_of_eq hperm.length_eq) hsorted 0 v hv'
  rw [hL, hE] at h
  rw [percentile01, h]
  congr 1
  push_cast
  ring

theorem percentile01_dom {l : List ℚ} {v q : ℚ}
    (h : mapGet (percentile01 l) v = some q) : v ∈ l := by
  have := pctAux_mem (l.length : ℚ) l.length (List.insertionSort (· ≤ ·) l)
    (le_of_eq (List.perm_insertionSort (· ≤ ·) l).length_eq) 0 v q h
  exact (List.perm_insertionSort (· ≤ ·) l).mem_iff.mp this

theorem percentile01_bounds {l : List ℚ} {v q : ℚ}
    (h : mapGet (percentile01 l) v = some q) : 0 < q ∧ q ≤ 1 := by
  have hv : v ∈ l := percentile01_dom h
  rw [percentile01_lookup hv] at h
  have hq : q = ((2 * (countLt v l : ℚ) + (countEq v l : ℚ) + 1) / 2) / (l.length : ℚ) :=
    (Option.some_inj.mp h).symm
  have hE : 0 < countEq v l := countEq_pos_of_mem hv
  have hLE : countLt v l + countEq v l ≤ l.length := countLt_add_countEq_le v l
  have hN : 0 < l.length := List.length_pos.mpr (by rintro rfl; simp at hv)
  have hNq : (0 : ℚ) < (l.length : ℚ) := by exact_mod_cast hN
  have hEq : (1 : ℚ) ≤ (countEq v l : ℚ) := by exact_mod_cast hE
  have hLq : (0 : ℚ) ≤ (countLt v l : ℚ) := by positivity
  constructor
  · rw [hq]
    apply div_pos
    · apply div_pos
      · linarith
      · norm_num
    · exact hNq
  · rw [hq, div_div]
    rw [div_le_one (by linarith)]
    have hn : 2 * countLt v l + countEq v l + 1 ≤ 2 * l.length := by omega
    have hcast : ((2 * countLt v l + countEq v l + 1 : ℕ) : ℚ) ≤ ((2 * l.length : ℕ) : ℚ) :=
      Nat.cast_le.mpr hn
    push_cast at hcast
    linarith

/-! ### Store idempotence development -/

theorem writeStep_key (q : DailyQuote) (r : Row) :
    (writeStep q r).code = r.code ∧ (writeStep q r).date = r.date := by
  unfold writeStep writeRow
  by_cases h : quoteKeyMatches q r <;> simp [h]

theorem quoteKeyMatches_writeStep (p q : DailyQuote) (r : Row) :
    quoteKeyMatches p (writeStep q r) = quoteKeyMatches p r := by
  unfold quoteKeyMatches
  rw [(writeStep_key q r).1, (writeStep_key q r).2]

theorem quoteKeyMatches_writeRow (p q : DailyQuote) (r : Row) :
    quoteKeyMatches p (writeRow q r) = quoteKeyMatches p r := rfl

theorem writeRow_writeRow (q : DailyQuote) (r : Row) :
    writeRow q (writeRow q r) = writeRow q r := rfl

theorem writeRow_quoteRow (q : DailyQuote) : writeRow q (quoteRow q) = quoteRow q := rfl

theorem quoteKeyMatches_quoteRow (q : DailyQuote) : quoteKeyMatches q (quoteRow q) = true := by
  simp [quoteKeyMatches, quoteRow]

theorem lastWrite_cons (q : DailyQuote) (b : List DailyQuote) (r : Row) :
    lastWrite (q :: b) r = lastWrite b (writeStep q r) := rfl

theorem hasKey_upsertOne_self (s : List Row) (q : DailyQuote) :
    hasKey (upsertOne s q) q = true := by
  unfold hasKey upsertOne
  by_cases h : s.any (quoteKeyMatches q)
  · rw [if_pos h, List.any_map]
    rw [show (quoteKeyMatches q ∘ writeStep q) = quoteKeyMatches q from
      funext fun r => quoteKeyMatches_writeStep q q r]
    exact h
  · rw [if_neg h]
    simp [List.any_append, quoteKeyMatches_quoteRow]

theorem hasKey_upsertOne_mono {s : List Row} {p : DailyQuote} (q : DailyQuote)
    (h : hasKey s p = true) : hasKey (upsertOne s q) p = true := by
  unfold hasKey upsertOne at *
  by_cases hq : s.any (quoteKeyMatches q)
  · rw [if_pos hq, List.any_map]
    rw [show (quoteKeyMatches p ∘ writeStep q) = quoteKeyMatches p from
      funext fun r => quoteKeyMatches_writeStep p q r]
    exact h
  · rw [if_neg hq]
    simp [List.any_append, h]

theorem hasKey_foldl_mono {p : DailyQuote} :
    ∀ (b : List DailyQuote) (s : List Row), hasKey s p = true →
      hasKey (b.foldl upsertOne s) p = true := by
  intro b
  induction b with
  | nil => intro s h; exact h
  | cons q b ih => intro s h; exact ih _ (hasKey_upsertOne_mono q h)

theorem hasKey_after_apply {q : DailyQuote} :
    ∀ (b : List DailyQuote) (s : List Row), q ∈ b →
      hasKey (b.foldl upsertOne s) q = true := by
  intro b
  induction b with
  | nil => intro s h; simp at h
  | cons q' b ih =>
    intro s h
    rcases List.mem_cons.mp h with h | h
    · subst h
      exact hasKey_foldl_mono b _ (hasKey_upsertOne_self s q)
    · exact ih _ h

theorem upsertOne_of_hasKey {s : List Row} {q : DailyQuote} (h : hasKey s q = true) :
    upsertOne s q = s.map (writeStep q) := by
  unfold hasKey at h
  simp [upsertOne, h]

theorem hasKey_map_writeStep {s : List Row} {p q : DailyQuote} :
    hasKey (s.map (writeStep q)) p = hasKey s p := by
  unfold hasKey
  rw [List.any_map]
  rw [show (quoteKeyMatches p ∘ writeStep q) = quoteKeyMatches p from
    funext fun r => quoteKeyMatches_writeStep p q r]

theorem apply_eq_map_lastWrite :
    ∀ (b : List DailyQuote) (t : List Row), (∀ q ∈ b, hasKey t q = true) →
      b.foldl upsertOne t = t.map (lastWrite b) := by
  intro b
  induction b with
  | nil =>
    intro t _
    rw [show lastWrite [] = id from funext fun r => rfl, List.map_id]
    rfl
  | cons q b ih =>
    intro t hall
    have hk : hasKey t q = true := hall q (by simp)
    rw [List.foldl_cons, upsertOne_of_hasKey hk,
      ih (t.map (writeStep q)) (fun p hp => by
        rw [hasKey_map_writeStep]; exact hall p (by simp [hp])),
      List.map_map]
    rfl

theorem mem_foldl_no_match :
    ∀ (b : List DailyQuote) (t : List Row) (r : Row),
      r ∈ b.foldl upsertOne t → (∀ q ∈ b, quoteKeyMatches q r = false) → r ∈ t := by
  intro b
  induction b with
  | nil => intro t r h _; exact h
  | cons q b ih =>
    intro t r h hnm
    have h1 : r ∈ upsertOne t q := ih _ r (by simpa [List.foldl_cons] using h)
      (fun p hp => hnm p (by simp [hp]))
    unfold upsertOne at h1
    by_cases hq : t.any (quoteKeyMatches q)
    · rw [if_pos hq] at h1
      rcases List.mem_map.mp h1 with ⟨r0, hr0, hw⟩
      rw [writeStep] at hw
      by_cases hm : quoteKeyMatches q r0
      · rw [if_pos hm] at hw
        exfalso
        have : quoteKeyMatches q r = false := hnm q (by simp)
        rw [← hw, quoteKeyMatches_writeRow] at this
        rw [hm] at this
        simp at this
      · rw [if_neg hm] at hw
        rw [← hw]
        exact hr0
    · rw [if_neg hq] at h1
      rcases List.mem_append.mp h1 with h2 | h2
      · exact h2
      · exfalso
        have : r = quoteRow q := by simpa using h2
        have hf := hnm q (by simp)
        rw [this, quoteKeyMatches_quoteRow] at hf
        simp at hf

theorem lastWrite_congr_key :
    ∀ (b : List DailyQuote) (r r' : Row), r.code = r'.code → r.date = r'.date →
      b.any (fun q => quoteKeyMatches q r) = true →
      lastWrite b r = lastWrite b r' := by
  intro b
  induction b with
  | nil => intro r r' _ _ h; simp at h
  | cons q b ih =>
    intro r r' hc hd hany
    have hmatch_eq : quoteKeyMatches q r = quoteKeyMatches q r' := by
      unfold quoteKeyMatches
      rw [hc, hd]
    rw [lastWrite_cons, lastWrite_cons]
    by_cases hb : b.any (fun p => quoteKeyMatches p r) = true
    · apply ih
      · rw [(writeStep_key q r).1, (writeStep_key q r').1, hc]
      · rw [(writeStep_key q r).2, (writeStep_key q r').2, hd]
      · rw [show (fun p => quoteKeyMatches p (writeStep q r)) = fun p => quoteKeyMatches p r from
          funext fun p => quoteKeyMatches_writeStep p q r]
        exact hb
    · have hq : quoteKeyMatches q r = true := by
        rcases List.any_eq_true.mp hany with ⟨p, hp, hpr⟩
        rcases List.mem_cons.mp hp with hpq | hpb
        · rw [← hpq]; exact hpr
        · exact absurd (List.any_eq_true.mpr ⟨p, hpb, hpr⟩) hb
      have hq' : quoteKeyMatches q r' = true := hmatch_eq ▸ hq
      have hwr : writeRow q r = writeRow q r' := by
        unfold writeRow
        cases r
        cases r'
        simp only at hc hd
        simp [hc, hd]
      rw [writeStep, if_pos hq, writeStep, if_pos hq', hwr]

theorem lastWrite_fix :
    ∀ (b : List DailyQuote) (t : List Row) (r : Row),
      r ∈ b.foldl upsertOne t → lastWrite b r = r := by
  intro b
  induction b with
  | nil => intro t r _; rfl
  | cons q b ih =>
    intro t r hr
    have hr' : r ∈ b.foldl upsertOne (upsertOne t q) := by
      simpa [List.foldl_cons] using hr
    have hfix : lastWrite b r = r := ih _ r hr'
    rw [lastWrite_cons]
    by_cases hm : quoteKeyMatches q r
    · rw [writeStep, if_pos hm]
      by_cases hb : b.any (fun p => quoteKeyMatches p r) = true
      · have heq : lastWrite b (writeRow q r) = lastWrite b r := by
          apply lastWrite_congr_key
          · rfl
          · rfl
          · rw [show (fun p => quoteKeyMatches p (writeRow q r)) = fun p => quoteKeyMatches p r from
              funext fun p => quoteKeyMatches_writeRow p q r]
            exact hb
        rw [heq, hfix]
      · have hnomatch : ∀ p ∈ b, quoteKeyMatches p r = false := by
          intro p hp
          by_contra hcon
          have hpt : quoteKeyMatches p r = true := by
            cases hq2 : quoteKeyMatches p r
            · exact absurd hq2 hcon
            · rfl
          exact hb (List.any_eq_true.mpr ⟨p, hp, hpt⟩)
        have hrt : r ∈ upsertOne t q := mem_foldl_no_match b _ r hr' hnomatch
        have hwrr : writeRow q r = r := by
          unfold upsertOne at hrt
          by_cases hq2 : t.any (quoteKeyMatches q)
          · rw [if_pos hq2] at hrt
            rcases List.mem_map.mp hrt with ⟨r0, hr0, hw⟩
            rw [writeStep] at hw
            by_cases hm0 : quoteKeyMatches q r0
            · rw [if_pos hm0] at hw
              rw [← hw]
              exact writeRow_writeRow q r0
            · rw [if_neg hm0] at hw
              rw [← hw] at hm
              exact absurd hm hm0
          · rw [if_neg hq2] at hrt
            rcases List.mem_append.mp hrt with h2 | h2
            · exact absurd (List.any_eq_true.mpr ⟨r, h2, hm⟩) hq2
            · have : r = quoteRow q := by simpa using h2
              rw [this]
              exact writeRow_quoteRow q
        rw [hwrr]
        exact hfix
    · rw [writeStep, if_neg hm]
      exact hfix

theorem apply_idem (b : List DailyQuote) (s : List Row) :
    b.foldl upsertOne (b.foldl upsertOne s) = b.foldl upsertOne s := by
  rw [apply_eq_map_lastWrite b _ (fun q hq => hasKey_after_apply b s hq)]
  have hfix : ∀ r ∈ b.foldl upsertOne s, lastWrite b r = r :=
    fun r hr => lastWrite_fix b s r hr
  calc (b.foldl upsertOne s).map (lastWrite b)
      = (b.foldl upsertOne s).map id := List.map_congr_left hfix
    _ = b.foldl upsertOne s := List.map_id _

theorem foldl_chunksOf {α β : Type _} (f : β → α → β) :
    ∀ (fuel : ℕ) (l : List α) (s : β), l.length ≤ fuel →
      (chunksOf fuel l).foldl (fun st part => part.foldl f st) s = l.foldl f s := by
  intro fuel
  induction fuel with
  | zero =>
    intro l s h
    rcases l with _ | ⟨x, xs⟩
    · simp [chunksOf]
    · simp at h
  | succ m ih =>
    intro l s h
    rcases l with _ | ⟨x, xs⟩
    · simp [chunksOf]
    · simp only [chunksOf, List.foldl_cons]
      have hlen : ((x :: xs).drop CHUNK).length ≤ m := by
        simp only [List.length_drop, List.length_cons]
        simp only [List.length_cons] at h
        have : 0 < CHUNK := by decide
        omega
      rw [ih _ _ hlen]
      have key : List.foldl f s (x :: xs)
          = ((x :: xs).drop CHUNK).foldl f (((x :: xs).take CHUNK).foldl f s) := by
        rw [← List.foldl_append, List.take_append_drop]
      rw [← key]
      rfl

theorem upsertQuotes_eq_foldl (s : List Row) (qs : List DailyQuote) :
    upsertQuotes s qs = qs.foldl upsertOne s :=
  foldl_chunksOf upsertOne qs.length qs s le_rfl

/-! ### Sync-loop lemmas -/

theorem fetchPagesLoop_ok_pages (cap : ℕ) :
    ∀ (pages : List (Except String (List RawQuote))) (g : ℕ) (qs : List DailyQuote),
      fetchPagesLoop cap pages g = .ok qs → ∀ p ∈ pages, ∃ rs, p = .ok rs := by
  intro pages
  induction pages with
  | nil => intro g qs _ p hp; simp at hp
  | cons p0 rest ih =>
    intro g qs h p hp
    rcases p0 with e | v
    · simp [fetchPagesLoop] at h
    · simp only [fetchPagesLoop] at h
      by_cases hrest : rest.isEmpty
      · rw [if_pos hrest] at h
        have : rest = [] := List.isEmpty_iff.mp hrest
        subst this
        rcases List.mem_cons.mp hp with h1 | h1
        · exact ⟨v, h1⟩
        · simp at h1
      · rw [if_neg hrest] at h
        by_cases hcap : cap < g + 1
        · rw [if_pos hcap] at h
          simp at h
        · rw [if_neg hcap] at h
          rcases hrec : fetchPagesLoop cap rest (g + 1) with e2 | more
          · rw [hrec] at h; simp at h
          · rcases List.mem_cons.mp hp with h1 | h1
            · exact ⟨v, h1⟩
            · exact ih (g + 1) more hrec p h1

theorem mem_markIngested {D d : String} {l : List String}
    (h : D ∈ markIngested l d) : D ∈ l ∨ D = d := by
  unfold markIngested at h
  by_cases hc : l.contains d
  · rw [if_pos hc] at h
    exact Or.inl h
  · rw [if_neg hc] at h
    rcases List.mem_append.mp h with h1 | h1
    · exact Or.inl h1
    · exact Or.inr (by simpa using h1)

theorem syncDays_ledger_sound (env : SyncEnv) (force : Bool) :
    ∀ (days : List String) (st0 : SyncState) (D : String),
      D ∈ (resultState (syncDays env force days st0)).ledger →
      D ∈ st0.ledger ∨
        ((∃ qs, fetchDailyQuotesAllPages env D = .ok qs ∧ env.dbOk D = true)
          ∧ ∀ p ∈ env.pages D, ∃ rs, p = .ok rs) := by
  intro days
  induction days with
  | nil => intro st0 D h; exact Or.inl h
  | cons d ds ih =>
    intro st0 D h
    simp only [syncDays] at h
    by_cases hskip : (force = false && isIngested st0.ledger d) = true
    · rw [if_pos hskip] at h
      exact ih st0 D h
    · rw [if_neg hskip] at h
      rcases hf : fetchDailyQuotesAllPages env d with e | quotes
      · simp only [hf, resultState] at h
        exact Or.inl h
      · simp only [hf] at h
        by_cases hdb : env.dbOk d = true
        · rw [if_pos hdb] at h
          rcases ih _ D h with h1 | h1
          · rcases mem_markIngested h1 with h2 | h2
            · exact Or.inl h2
            · subst h2
              exact Or.inr ⟨⟨quotes, hf, hdb⟩, fetchPagesLoop_ok_pages 300 _ 0 quotes hf⟩
          · exact Or.inr h1
        · rw [if_neg hdb] at h
          simp only [resultState] at h
          exact Or.inl h

theorem syncDays_append_ok (env : SyncEnv) (force : Bool) :
    ∀ (l1 l2 : List String) (st st1 : SyncState),
      syncDays env force l1 st = .ok st1 →
      syncDays env force (l1 ++ l2) st = syncDays env force l2 st1 := by
  intro l1
  induction l1 with
  | nil =>
    intro l2 st st1 h
    simp only [syncDays] at h
    cases h
    rfl
  | cons d ds ih =>
    intro l2 st st1 h
    simp only [syncDays] at h ⊢
    by_cases hskip : (force = false && isIngested st.ledger d) = true
    · rw [if_pos hskip] at h ⊢
      exact ih l2 _ _ h
    · rw [if_neg hskip] at h ⊢
      rcases hf : fetchDailyQuotesAllPages env d with e | quotes
      · simp only [hf] at h
        simp at h
      · simp only [hf] at h ⊢
        by_cases hdb : env.dbOk d = true
        · rw [if_pos hdb] at h ⊢
          exact ih l2 _ _ h
        · rw [if_neg hdb] at h
          simp at h

theorem syncDays_fatal (env : SyncEnv) (force : Bool)
    (days1 : List String) (d : String) (days2 : List String)
    (st0 st1 : SyncState) (e : String)
    (h1 : syncDays env force days1 st0 = .ok st1)
    (h2 : force = true ∨ isIngested st1.ledger d = false)
    (h3 : fetchDailyQuotesAllPages env d = .error e) :
    syncDays env force (days1 ++ d :: days2) st0 = .error (e, st1) := by
  rw [syncDays_append_ok env force days1 (d :: days2) st0 st1 h1]
  simp only [syncDays]
  have hskip : (force = false && isIngested st1.ledger d) = false := by
    rcases h2 with h2 | h2
    · rw [h2]; rfl
    · rw [h2]; simp
  rw [hskip]
  simp only [Bool.false_eq_true, if_false, h3]

theorem syncByCodes_append (env : SyncEnv) :
    ∀ (cs1 cs2 : List String) (st : CodeSyncState),
      syncByCodes env (cs1 ++ cs2) st = syncByCodes env cs2 (syncByCodes env cs1 st) := by
  intro cs1
  induction cs1 with
  | nil => intro cs2 st; rfl
  | cons c cs ih =>
    intro cs2 st
    rcases hf : fetchDailyQuotesByCodeAllPages env c with e | quotes
    · simp only [List.cons_append, syncByCodes, hf]
      exact ih cs2 _
    · simp only [List.cons_append, syncByCodes, hf]
      by_cases hdb : env.dbOk c = true
      · rw [if_pos hdb, if_pos hdb]
        exact ih cs2 _
      · rw [if_neg hdb, if_neg hdb]
        exact ih cs2 _

theorem syncByCodes_errors_sub (env : SyncEnv) :
    ∀ (cs : List String) (st : CodeSyncState) (e : String),
      e ∈ st.errors → e ∈ (syncByCodes env cs st).errors := by
  intro cs
  induction cs with
  | nil => intro st e h; exact h
  | cons c cs ih =>
    intro st e h
    rcases hf : fetchDailyQuotesByCodeAllPages env c with e2 | quotes
    · simp only [syncByCodes, hf]
      exact ih _ e (by simp [h])
    · simp only [syncByCodes, hf]
      by_cases hdb : env.dbOk c = true
      · rw [if_pos hdb]
        exact ih _ e h
      · rw [if_neg hdb]
        exact ih _ e (by simp [h])

theorem syncByCodes_records_failure (env : SyncEnv) :
    ∀ (cs : List String) (st : CodeSyncState) (c e : String),
      c ∈ cs → fetchDailyQuotesByCodeAllPages env c = .error e →
      (c ++ ":" ++ e) ∈ (syncByCodes env cs st).errors := by
  intro cs
  induction cs with
  | nil => intro st c e h _; simp at h
  | cons c0 cs ih =>
    intro st c e hmem hf
    rcases List.mem_cons.mp hmem with h1 | h1
    · subst h1
      simp only [syncByCodes, hf]
      exact syncByCodes_errors_sub env cs _ _ (by simp)
    · rcases hf0 : fetchDailyQuotesByCodeAllPages env c0 with e2 | quotes
      · simp only [syncByCodes, hf0]
        exact ih _ c e h1 hf
      · simp only [syncByCodes, hf0]
        by_cases hdb : env.dbOk c0 = true
        · rw [if_pos hdb]
          exact ih _ c e h1 hf
        · rw [if_neg hdb]
          exact ih _ c e h1 hf

theorem syncByCodes_isolates (env : SyncEnv) (cs1 : List String) (c : String)
    (cs2 : List String) (st : CodeSyncState) (e : String)
    (hf : fetchDailyQuotesByCodeAllPages env c = .error e) :
    syncByCodes env (cs1 ++ c :: cs2) st
      = syncByCodes env cs2 (recordFailure c e (syncByCodes env cs1 st)) := by
  rw [syncByCodes_append]
  simp only [syncByCodes, hf]
  rfl

theorem syncByCodes_db_step (env : SyncEnv) (c : String) (cs : List String)
    (st : CodeSyncState) (quotes : List DailyQuote)
    (hf : fetchDailyQuotesByCodeAllPages env c = .ok quotes)
    (hdb : env.dbOk c = false) :
    syncByCodes env (c :: cs) st = syncByCodes env cs (dbFailStep env c quotes st) := by
  have hdb' : ¬ env.dbOk c = true := by simp [hdb]
  simp only [syncByCodes, hf]
  rw [if_neg hdb']
  rfl

theorem syncByCodes_isolates_db (env : SyncEnv) (cs1 : List String) (c : String)
    (cs2 : List String) (st : CodeSyncState) (quotes : List DailyQuote)
    (hf : fetchDailyQuotesByCodeAllPages env c = .ok quotes)
    (hdb : env.dbOk c = false) :
    syncByCodes env (cs1 ++ c :: cs2) st
      = syncByCodes env cs2 (dbFailStep env c quotes (syncByCodes env cs1 st)) := by
  rw [syncByCodes_append]
  exact syncByCodes_db_step env c cs2 _ quotes hf hdb

theorem syncByCodes_records_db_failure (env : SyncEnv) :
    ∀ (cs : List String) (st : CodeSyncState) (c : String) (quotes : List DailyQuote),
      c ∈ cs → fetchDailyQuotesByCodeAllPages env c = .ok quotes → env.dbOk c = false →
      (c ++ ":db error") ∈ (syncByCodes env cs st).errors := by
  intro cs
  induction cs with
  | nil => intro st c quotes h _ _; simp at h
  | cons c0 cs ih =>
    intro st c quotes hmem hf hdb
    rcases List.mem_cons.mp hmem with h1 | h1
    · subst h1
      rw [syncByCodes_db_step env c cs st quotes hf hdb]
      exact syncByCodes_errors_sub env cs _ _ (by simp [dbFailStep])
    · rcases hf0 : fetchDailyQuotesByCodeAllPages env c0 with e2 | quotes0
      · simp only [syncByCodes, hf0]
        exact ih _ c quotes h1 hf hdb
      · simp only [syncByCodes, hf0]
        by_cases hdb0 : env.dbOk c0 = true
        · rw [if_pos hdb0]
          exact ih _ c quotes h1 hf hdb
        · rw [if_neg hdb0]
          exact ih _ c quotes h1 hf hdb

/-! ### Score-bound lemmas -/

theorem normLookup_unit (l : List ℚ) (v : ℚ) :
    0 ≤ normLookup (percentile01 l) v ∧ normLookup (percentile01 l) v ≤ 1 := by
  unfold normLookup
  rcases h : mapGet (percentile01 l) v with _ | q
  · simp
  · have hb := percentile01_bounds h
    simp [hb.1.le, hb.2]

theorem normLookupOpt_unit (l : List ℚ) (v : Option ℚ) :
    0 ≤ normLookupOpt (percentile01 l) v ∧ normLookupOpt (percentile01 l) v ≤ 1 := by
  rcases v with _ | x
  · simp [normLookupOpt]
  · exact normLookup_unit l x

theorem blend5_unit {w1 w2 w3 w4 w5 p1 p2 p3 p4 p5 : ℚ}
    (hw1 : 0 ≤ w1) (hw2 : 0 ≤ w2) (hw3 : 0 ≤ w3) (hw4 : 0 ≤ w4) (hw5 : 0 ≤ w5)
    (hp1 : 0 ≤ p1 ∧ p1 ≤ 1) (hp2 : 0 ≤ p2 ∧ p2 ≤ 1) (hp3 : 0 ≤ p3 ∧ p3 ≤ 1)
    (hp4 : 0 ≤ p4 ∧ p4 ≤ 1) (hp5 : 0 ≤ p5 ∧ p5 ≤ 1) :
    0 ≤ (w1 * p1 + w2 * p2 + w3 * p3 + w4 * p4 + w5 * p5)
        / max (1 / 1000000000) (w1 + w2 + w3 + w4 + w5)
      ∧ (w1 * p1 + w2 * p2 + w3 * p3 + w4 * p4 + w5 * p5)
        / max (1 / 1000000000) (w1 + w2 + w3 + w4 + w5) ≤ 1 := by
  have hden : (0 : ℚ) < max (1 / 1000000000) (w1 + w2 + w3 + w4 + w5) :=
    lt_of_lt_of_le (by norm_num) (le_max_left _ _)
  constructor
  · apply div_nonneg _ hden.le
    have e1 := mul_nonneg hw1 hp1.1
    have e2 := mul_nonneg hw2 hp2.1
    have e3 := mul_nonneg hw3 hp3.1
    have e4 := mul_nonneg hw4 hp4.1
    have e5 := mul_nonneg hw5 hp5.1
    linarith
  · rw [div_le_one hden]
    have e1 := mul_le_of_le_one_right hw1 hp1.2
    have e2 := mul_le_of_le_one_right hw2 hp2.2
    have e3 := mul_le_of_le_one_right hw3 hp3.2
    have e4 := mul_le_of_le_one_right hw4 hp4.2
    have e5 := mul_le_of_le_one_right hw5 hp5.2
    have hmax : w1 + w2 + w3 + w4 + w5 ≤ max (1 / 1000000000) (w1 + w2 + w3 + w4 + w5) :=
      le_max_right _ _
    linarith

theorem blend4_unit {w1 w2 w3 w4 p1 p2 p3 p4 : ℚ}
    (hw1 : 0 ≤ w1) (hw2 : 0 ≤ w2) (hw3 : 0 ≤ w3) (hw4 : 0 ≤ w4)
    (hp1 : 0 ≤ p1 ∧ p1 ≤ 1) (hp2 : 0 ≤ p2 ∧ p2 ≤ 1) (hp3 : 0 ≤ p3 ∧ p3 ≤ 1)
    (hp4 : 0 ≤ p4 ∧ p4 ≤ 1) :
    0 ≤ (w1 * p1 + w2 * p2 + w3 * p3 + w4 * p4)
        / max (1 / 1000000000) (w1 + w2 + w3 + w4)
      ∧ (w1 * p1 + w2 * p2 + w3 * p3 + w4 * p4)
        / max (1 / 1000000000) (w1 + w2 + w3 + w4) ≤ 1 := by
  have hden : (0 : ℚ) < max (1 / 1000000000) (w1 + w2 + w3 + w4) :=
    lt_of_lt_of_le (by norm_num) (le_max_left _ _)
  constructor
  · apply div_nonneg _ hden.le
    have e1 := mul_nonneg hw1 hp1.1
    have e2 := mul_nonneg hw2 hp2.1
    have e3 := mul_nonneg hw3 hp3.1
    have e4 := mul_nonneg hw4 hp4.1
    linarith
  · rw [div_le_one hden]
    have e1 := mul_le_of_le_one_right hw1 hp1.2
    have e2 := mul_le_of_le_one_right hw2 hp2.2
    have e3 := mul_le_of_le_one_right hw3 hp3.2
    have e4 := mul_le_of_le_one_right hw4 hp4.2
    have hmax : w1 + w2 + w3 + w4 ≤ max (1 / 1000000000) (w1 + w2 + w3 + w4) :=
      le_max_right _ _
    linarith

/-! ### Claim theorems -/

/-- C1 (amended): for every non-empty list of finite factor values of size
`n`, `percentile01` assigns to each distinct value the average of its 1-based
rank positions in the ascending sort divided by `n` (equivalently
`(2·countLt + countEq + 1) / (2n)`); consequently the minimum value's
percentile is `(countEq + 1) / (2n)` — which is `1/n` when the minimum is
untied — the maximum value's percentile is `(2n − countEq + 1) / (2n)` —
which is exactly `1.0` when the maximum is untied (and strictly the
tie-averaged equivalent otherwise) — any tied occurrences of the same raw
value receive the identical percentile, and the input `[1,2,2,4,5]` yields
the map `{1: 0.2, 2: 0.5, 4: 0.8, 5: 1.0}`. -/
theorem percentile01_rank_spec (l : List ℚ) (hl : l ≠ []) :
    (∀ v ∈ l, mapGet (percentile01 l) v
        = some (((2 * (countLt v l : ℚ) + (countEq v l : ℚ) + 1) / 2) / (l.length : ℚ)))
  ∧ (∀ v ∈ l, mapGet (percentile01 l) v
        = some (((rankSum v (List.insertionSort (· ≤ ·) l) 1 : ℕ) : ℚ)
            / ((countEq v l : ℚ) * (l.length : ℚ))))
  ∧ (∀ v ∈ l, (∀ w ∈ l, v ≤ w) →
        mapGet (percentile01 l) v = some (((countEq v l : ℚ) + 1) / (2 * (l.length : ℚ))))
  ∧ (∀ v ∈ l, (∀ w ∈ l, w ≤ v) →
        mapGet (percentile01 l) v
          = some ((2 * (l.length : ℚ) - (countEq v l : ℚ) + 1) / (2 * (l.length : ℚ))))
  ∧ (∀ v ∈ l, (∀ w ∈ l, v ≤ w) → countEq v l = 1 →
        mapGet (percentile01 l) v = some (1 / (l.length : ℚ)))
  ∧ (∀ v ∈ l, (∀ w ∈ l, w ≤ v) → countEq v l = 1 →
        mapGet (percentile01 l) v = some 1)
  ∧ (∀ v ∈ l, ∀ w ∈ l, v = w → mapGet (percentile01 l) v = mapGet (percentile01 l) w)
  ∧ (mapGet (percentile01 [1, 2, 2, 4, 5]) 1 = some (1 / 5)
      ∧ mapGet (percentile01 [1, 2, 2, 4, 5]) 2 = some (1 / 2)
      ∧ mapGet (percentile01 [1, 2, 2, 4, 5]) 4 = some (4 / 5)
      ∧ mapGet (percentile01 [1, 2, 2, 4, 5]) 5 = some 1) := by
  have hNpos : ∀ v : ℚ, v ∈ l → (0 : ℚ) < (l.length : ℚ) := by
    intro v hv
    have : 0 < l.length := List.length_pos.mpr (by rintro rfl; simp at hv)
    exact_mod_cast this
  have hEpos : ∀ v : ℚ, v ∈ l → (1 : ℚ) ≤ (countEq v l : ℚ) := by
    intro v hv
    exact_mod_cast countEq_pos_of_mem hv
  refine ⟨?_, ?_, ?_, ?_, ?_, ?_, ?_, ?_⟩
  · intro v hv
    exact percentile01_lookup hv
  · intro v hv
    rw [percentile01_lookup hv]
    have hperm := List.perm_insertionSort (· ≤ ·) l
    have hsorted := List.sorted_insertionSort (· ≤ ·) l
    have hL : countLt v (List.insertionSort (· ≤ ·) l) = countLt v l := hperm.countP_eq _
    have hE : countEq v (List.insertionSort (· ≤ ·) l) = countEq v l := hperm.countP_eq _
    have hrs := rankSum_sorted hsorted (v := v) 1
    rw [hL, hE] at hrs
    have hN := hNpos v hv
    have hE1 := hEpos v hv
    congr 1
    rw [hrs]
    have hEne : (countEq v l : ℚ) ≠ 0 := by linarith
    have hNne : (l.length : ℚ) ≠ 0 := ne_of_gt hN
    field_simp
    ring
  · intro v hv hmin
    rw [percentile01_lookup hv, countLt_eq_zero_of_min hmin]
    have hNne : (l.length : ℚ) ≠ 0 := ne_of_gt (hNpos v hv)
    congr 1
    push_cast
    field_simp
  · intro v hv hmax
    rw [percentile01_lookup hv]
    have hsum := countLt_add_countEq_of_max hmax
    have hcast : (countLt v l : ℚ) + (countEq v l : ℚ) = (l.length : ℚ) := by
      exact_mod_cast congrArg (fun n : ℕ => (n : ℚ)) hsum
    have hNne : (l.length : ℚ) ≠ 0 := ne_of_gt (hNpos v hv)
    congr 1
    field_simp
    linarith [hcast]
  · intro v hv hmin hone
    rw [percentile01_lookup hv, countLt_eq_zero_of_min hmin, hone]
    congr 1
  · intro v hv hmax hone
    rw [percentile01_lookup hv]
    have hsum := countLt_add_countEq_of_max hmax
    rw [hone] at hsum
    have hcast : (countLt v l : ℚ) + 1 = (l.length : ℚ) := by exact_mod_cast hsum
    rw [hone]
    have hNne : (l.length : ℚ) ≠ 0 := ne_of_gt (hNpos v hv)
    congr 1
    push_cast
    field_simp
    linarith [hcast]
  · intro v hv w hw hvw
    rw [hvw]
  · exact ⟨by decide, by decide, by decide, by decide⟩

/-- C1 witness: the amended claim applied at the concrete input
`[1,2,2,4,5]`, whose maximum percentile is exactly `1.0`. -/
theorem percentile01_rank_spec_witness :
    ([1, 2, 2, 4, 5] : List ℚ) ≠ []
      ∧ mapGet (percentile01 [1, 2, 2, 4, 5]) 5 = some 1 :=
  ⟨by decide, (percentile01_rank_spec [1, 2, 2, 4, 5] (by decide)).2.2.2.2.2.2.2.2.2.2⟩

/-- C1 counterexample: on `[1, 2, 2]` the maximum value `2` is tied, and its
percentile is `5/6`, not `1.0` as the claim states for every maximum. -/
theorem percentile01_tiedMax_not_one :
    (∀ w ∈ ([1, 2, 2] : List ℚ), w ≤ 2)
      ∧ mapGet (percentile01 [1, 2, 2]) 2 = some (5 / 6)
      ∧ mapGet (percentile01 [1, 2, 2]) 2 ≠ some 1 := by
  refine ⟨by decide, by decide, ?_⟩
  intro h
  rw [show mapGet (percentile01 [1, 2, 2]) 2 = some (5 / 6) from by decide] at h
  exact absurd (Option.some.inj h) (by norm_num)

/-- C2: with non-negative weights, at least one of them positive, every
composite score — the weighted sum of per-factor percentiles (looked up with
the `?? 0` fallback) divided by the weight sum floor-clamped at `1e-9` — lies
in `[0, 1]`; this holds for the scoreboard blend, the scores-route blend, and
the medium-horizon blend, for percentile maps built by `percentile01` from
any value lists. -/
theorem composite_score_in_unit_interval
    (w : Weights5) (l1 l2 l3 l4 l5 : List ℚ) (m : IntradayMetric) (mo : IntradayMetricOpt)
    (v : Weights4) (k1 k2 k3 k4 : List ℚ) (mm : MediumMetric)
    (h1 : 0 ≤ w.w_openvol) (h2 : 0 ≤ w.w_gap) (h3 : 0 ≤ w.w_spike)
    (h4 : 0 ≤ w.w_intraday) (h5 : 0 ≤ w.w_volsurge)
    (hpos : 0 < w.w_openvol ∨ 0 < w.w_gap ∨ 0 < w.w_spike ∨ 0 < w.w_intraday
      ∨ 0 < w.w_volsurge)
    (g1 : 0 ≤ v.w_ret) (g2 : 0 ≤ v.w_volchg) (g3 : 0 ≤ v.w_volat) (g4 : 0 ≤ v.w_mom)
    (gpos : 0 < v.w_ret ∨ 0 < v.w_volchg ∨ 0 < v.w_volat ∨ 0 < v.w_mom) :
    (0 ≤ scoreScoreboard w
        ⟨percentile01 l1, percentile01 l2, percentile01 l3, percentile01 l4, percentile01 l5⟩ m
      ∧ scoreScoreboard w
        ⟨percentile01 l1, percentile01 l2, percentile01 l3, percentile01 l4, percentile01 l5⟩ m ≤ 1)
  ∧ (0 ≤ scoreScores w
        ⟨percentile01 l1, percentile01 l2, percentile01 l3, percentile01 l4, percentile01 l5⟩ mo
      ∧ scoreScores w
        ⟨percentile01 l1, percentile01 l2, percentile01 l3, percentile01 l4, percentile01 l5⟩ mo ≤ 1)
  ∧ (0 ≤ scoreMedium v ⟨percentile01 k1, percentile01 k2, percentile01 k3, percentile01 k4⟩ mm
      ∧ scoreMedium v ⟨percentile01 k1, percentile01 k2, percentile01 k3, percentile01 k4⟩ mm ≤ 1) := by
  refine ⟨?_, ?_, ?_⟩
  · exact blend5_unit h1 h2 h3 h4 h5
      (normLookup_unit l1 m.open_volatility_ratio)
      (normLookup_unit l2 m.gap_ratio)
      (normLookup_unit l3 m.volatility_spike_ratio)
      (normLookup_unit l4 m.intraday_momentum)
      (normLookup_unit l5 m.volume_surge_today)
  · exact blend5_unit h1 h2 h3 h4 h5
      (normLookupOpt_unit l1 mo.open_volatility_ratio)
      (normLookupOpt_unit l2 mo.gap_ratio)
      (normLookupOpt_unit l3 mo.volatility_spike_ratio)
      (normLookupOpt_unit l4 mo.intraday_momentum)
      (normLookupOpt_unit l5 mo.volume_surge_today)
  · exact blend4_unit g1 g2 g3 g4
      (normLookupOpt_unit k1 mm.ret_mean)
      (normLookupOpt_unit k2 mm.volchg_ratio)
      (normLookupOpt_unit k3 mm.volat_rto_mean)
      (normLookupOpt_unit k4 mm.mom_n_days)

/-- C2 witness: the score bound applied at the route's default weights and a
one-code universe. -/
theorem composite_score_in_unit_interval_witness :
    ((0 : ℚ) ≤ 1 / 4 ∧ (0 : ℚ) < 1 / 4)
      ∧ (0 ≤ scoreScoreboard ⟨1/4, 1/10, 7/20, 1/10, 1/5⟩
          ⟨percentile01 [3], percentile01 [2], percentile01 [5], percentile01 [7], percentile01 [4]⟩
          ⟨"1301", 3, 2, 5, 7, 4⟩
        ∧ scoreScoreboard ⟨1/4, 1/10, 7/20, 1/10, 1/5⟩
          ⟨percentile01 [3], percentile01 [2], percentile01 [5], percentile01 [7], percentile01 [4]⟩
          ⟨"1301", 3, 2, 5, 7, 4⟩ ≤ 1) :=
  ⟨⟨by norm_num, by norm_num⟩,
    (composite_score_in_unit_interval ⟨1/4, 1/10, 7/20, 1/10, 1/5⟩ [3] [2] [5] [7] [4]
      ⟨"1301", 3, 2, 5, 7, 4⟩ ⟨"1301", some 3, some 2, some 5, some 7, some 4⟩
      ⟨7/20, 1/4, 1/5, 1/5⟩ [1] [1] [1] [1] ⟨"1301", some 1, some 1, some 1, some 1⟩
      (by norm_num) (by norm_num) (by norm_num) (by norm_num) (by norm_num)
      (Or.inl (by norm_num))
      (by norm_num) (by norm_num) (by norm_num) (by norm_num)
      (Or.inl (by norm_num))).1⟩

/-- C4: applying the same bar batch to the store twice leaves `prices_daily`
in the same state as applying it once — rows are keyed by (code, date), a
write to an existing key overwrites the numeric fields in place instead of
inserting a duplicate row (the row count grows only for a missing key), and
all field values after the second application are identical to those after
the first. -/
theorem upsertQuotes_idempotent (s : List Row) (b : List DailyQuote) (q : DailyQuote) :
    upsertQuotes (upsertQuotes s b) b = upsertQuotes s b
      ∧ (upsertOne s q).length = (if hasKey s q = true then s.length else s.length + 1) := by
  constructor
  · rw [upsertQuotes_eq_foldl, upsertQuotes_eq_foldl]
    exact apply_idem b s
  · unfold upsertOne hasKey
    by_cases h : s.any (quoteKeyMatches q) = true
    · simp [h]
    · simp [h]

/-- C3: in the full-universe per-day sync, a day `D` is present in the ledger
after the loop (whether it finished or threw) only if it was there before, or
its whole paginated fetch succeeded (every page returned ok) and its upsert
batch succeeded; a fetch or upsert failure for `D` aborts the loop with `D`
unmarked, so partial-day data is never marked ingested. -/
theorem markIngested_only_after_full_fetch
    (env : SyncEnv) (force : Bool) (days : List String) (st0 : SyncState) (D : String)
    (h : D ∈ (resultState (syncDays env force days st0)).ledger) :
    D ∈ st0.ledger ∨
      ((∃ qs, fetchDailyQuotesAllPages env D = .ok qs ∧ env.dbOk D = true)
        ∧ ∀ p ∈ env.pages D, ∃ rs, p = .ok rs) :=
  syncDays_ledger_sound env force days st0 D h

/-- C3 witness: a one-day sync against a provider that answers with a single
successful page marks the day, and the theorem applies to it. -/
theorem markIngested_only_after_full_fetch_witness :
    ("2024-01-05" ∈ (resultState (syncDays ⟨fun _ => [Except.ok []], fun _ => [], fun _ => true, fun _ => 0⟩
        false ["2024-01-05"] ⟨[], []⟩)).ledger)
      ∧ ("2024-01-05" ∈ (⟨[], []⟩ : SyncState).ledger ∨
          ((∃ qs, fetchDailyQuotesAllPages
              ⟨fun _ => [Except.ok []], fun _ => [], fun _ => true, fun _ => 0⟩ "2024-01-05" = .ok qs
            ∧ (⟨fun _ => [Except.ok []], fun _ => [], fun _ => true, fun _ => 0⟩ : SyncEnv).dbOk "2024-01-05" = true)
          ∧ ∀ p ∈ (⟨fun _ => [Except.ok []], fun _ => [], fun _ => true, fun _ => 0⟩ : SyncEnv).pages "2024-01-05",
              ∃ rs, p = .ok rs)) :=
  ⟨by decide,
    markIngested_only_after_full_fetch ⟨fun _ => [Except.ok []], fun _ => [], fun _ => true, fun _ => 0⟩
      false ["2024-01-05"] ⟨[], []⟩ "2024-01-05" (by decide)⟩

/-- C7: in the bounded-parallel per-code path an exception for one code —
a fetch failure, or a store-batch (upsert) failure after a successful fetch
— is recorded in the error list (`code:message`, respectively
`code:db error`) and leaves the processing of every other code exactly as it
would have been — the loop never throws — whereas in the sequential
full-universe per-day path a quotes failure on any processed day makes the
whole sync fail, and the days after it are never processed. -/
theorem per_code_isolation_per_day_fatal :
    (∀ (env : SyncEnv) (cs1 : List String) (c : String) (cs2 : List String)
        (st : CodeSyncState) (e : String),
        fetchDailyQuotesByCodeAllPages env c = .error e →
        syncByCodes env (cs1 ++ c :: cs2) st
          = syncByCodes env cs2 (recordFailure c e (syncByCodes env cs1 st)))
  ∧ (∀ (env : SyncEnv) (cs : List String) (st : CodeSyncState) (c e : String),
        c ∈ cs → fetchDailyQuotesByCodeAllPages env c = .error e →
        (c ++ ":" ++ e) ∈ (syncByCodes env cs st).errors)
  ∧ (∀ (env : SyncEnv) (cs1 : List String) (c : String) (cs2 : List String)
        (st : CodeSyncState) (quotes : List DailyQuote),
        fetchDailyQuotesByCodeAllPages env c = .ok quotes →
        env.dbOk c = false →
        syncByCodes env (cs1 ++ c :: cs2) st
          = syncByCodes env cs2 (dbFailStep env c quotes (syncByCodes env cs1 st)))
  ∧ (∀ (env : SyncEnv) (cs : List String) (st : CodeSyncState) (c : String)
        (quotes : List DailyQuote),
        c ∈ cs → fetchDailyQuotesByCodeAllPages env c = .ok quotes →
        env.dbOk c = false →
        (c ++ ":db error") ∈ (syncByCodes env cs st).errors)
  ∧ (∀ (env : SyncEnv) (force : Bool) (days1 : List String) (d : String)
        (days2 : List String) (st0 st1 : SyncState) (e : String),
        syncDays env force days1 st0 = .ok st1 →
        (force = true ∨ isIngested st1.ledger d = false) →
        fetchDailyQuotesAllPages env d = .error e →
        syncDays env force (days1 ++ d :: days2) st0 = .error (e, st1)) :=
  ⟨fun env cs1 c cs2 st e hf => syncByCodes_isolates env cs1 c cs2 st e hf,
   fun env cs st c e hm hf => syncByCodes_records_failure env cs st c e hm hf,
   fun env cs1 c cs2 st quotes hf hdb => syncByCodes_isolates_db env cs1 c cs2 st quotes hf hdb,
   fun env cs st c quotes hm hf hdb => syncByCodes_records_db_failure env cs st c quotes hm hf hdb,
   fun env force d1 d d2 st0 st1 e h1 h2 h3 => syncDays_fatal env force d1 d d2 st0 st1 e h1 h2 h3⟩

/-- C7 witness: with a provider that fails on day `2024-01-06`, the per-day
sync that already ingested `2024-01-05` aborts with the failing day's error
and never reaches `2024-01-07`; and in the per-code path a store batch that
throws for code `1001` leaves its `db error` in the error list while the
loop finishes. -/
theorem per_code_isolation_per_day_fatal_witness :
    (syncDays ⟨fun d => if d = "2024-01-05" then [Except.ok []] else [Except.error ("boom")],
          fun _ => [], fun _ => true, fun _ => 0⟩ false ["2024-01-05"] ⟨[], []⟩
        = .ok ⟨[], ["2024-01-05"]⟩)
      ∧ (syncDays ⟨fun d => if d = "2024-01-05" then [Except.ok []] else [Except.error ("boom")],
            fun _ => [], fun _ => true, fun _ => 0⟩ false
            (["2024-01-05"] ++ "2024-01-06" :: ["2024-01-07"]) ⟨[], []⟩
          = .error ("boom", ⟨[], ["2024-01-05"]⟩))
      ∧ (("1001" ++ ":db error")
          ∈ (syncByCodes ⟨fun _ => [], fun _ => [Except.ok []], fun _ => false, fun _ => 0⟩
              ["1001"] ⟨[], [], 0, 0⟩).errors) :=
  ⟨by decide,
    per_code_isolation_per_day_fatal.2.2.2.2
      ⟨fun d => if d = "2024-01-05" then [Except.ok []] else [Except.error ("boom")],
        fun _ => [], fun _ => true, fun _ => 0⟩
      false ["2024-01-05"] "2024-01-06" ["2024-01-07"] ⟨[], []⟩ ⟨[], ["2024-01-05"]⟩ "boom"
      (by decide) (Or.inr (by decide)) (by decide),
    per_code_isolation_per_day_fatal.2.2.2.1
      ⟨fun _ => [], fun _ => [Except.ok []], fun _ => false, fun _ => 0⟩
      ["1001"] ⟨[], [], 0, 0⟩ "1001" []
      (List.mem_singleton_self _) (by decide) rfl⟩

/-- C6 (amended): the Metrics Engine computes factors for a code only when
its bar-history length reaches the minimum derived from the lookback windows
— `max(n_ret + 1, n_mom + 1, 5)` for the medium-horizon set (no
`n_vol_short + 1` term) and `max(n_vola + 1, n_vol_short + 1, 2)` for the
intraday set — and any code whose history is shorter never appears in the
engine's output. -/
theorem min_history_exclusion :
    (∀ (n_ret n_vol_short n_vol_long n_vola n_mom : ℕ)
        (entries : List (String × List Bar)) (m : MediumMetric),
        m ∈ metricsMedium n_ret n_vol_short n_vol_long n_vola n_mom entries →
        ∃ e ∈ entries, e.1 = m.code ∧ needMedium n_ret n_mom ≤ e.2.length)
  ∧ (∀ (n_vola n_vol_short : ℕ) (entries : List (String × List Bar)) (m : IntradayMetric),
        m ∈ metricsScoreboard n_vola n_vol_short entries →
        ∃ e ∈ entries, e.1 = m.code ∧ needIntraday n_vola n_vol_short ≤ e.2.length)
  ∧ (∀ n_ret n_mom, needMedium n_ret n_mom = max (n_ret + 1) (max (n_mom + 1) 5))
  ∧ (∀ n_vola n_vol_short, needIntraday n_vola n_vol_short
        = max (n_vola + 1) (max (n_vol_short + 1) 2)) := by
  refine ⟨?_, ?_, fun _ _ => rfl, fun _ _ => rfl⟩
  · intro n_ret n_vol_short n_vol_long n_vola n_mom entries m hm
    rcases List.mem_filterMap.mp hm with ⟨e, he, hfe⟩
    dsimp only at hfe
    by_cases hlen : (sortBars e.2).length < needMedium n_ret n_mom
    · rw [if_pos hlen] at hfe
      simp at hfe
    · rw [if_neg hlen] at hfe
      refine ⟨e, he, ?_, ?_⟩
      · cases hfe
        rfl
      · have hsort : (sortBars e.2).length = e.2.length :=
          (List.perm_insertionSort _ e.2).length_eq
        rw [hsort] at hlen
        omega
  · intro n_vola n_vol_short entries m hm
    rcases List.mem_filterMap.mp hm with ⟨e, he, hfe⟩
    dsimp only at hfe
    by_cases hlen : (sortBars e.2).length < needIntraday n_vola n_vol_short
    · rw [if_pos hlen] at hfe
      simp at hfe
    · rw [if_neg hlen] at hfe
      refine ⟨e, he, ?_, ?_⟩
      · split at hfe
        · cases hfe
          rfl
        · simp at hfe
      · have hsort : (sortBars e.2).length = e.2.length :=
          (List.perm_insertionSort _ e.2).length_eq
        rw [hsort] at hlen
        omega

/-- C6 witness: a two-bar history meets the intraday minimum
`max(1 + 1, 1 + 1, 2) = 2`, so the theorem applies to its output entry. -/
theorem min_history_exclusion_witness :
    (metricsScoreboard 1 1 [("1001", [(⟨"2024-01-05", 100, 110, 90, 105, 10⟩ : Bar), ⟨"2024-01-06", 100, 105, 95, 102, 50⟩])] = [(⟨"1001", 1/10, -1/21, 1/2, 1/50, 5⟩ : IntradayMetric)])
      ∧ (∃ e ∈ [("1001", [(⟨"2024-01-05", 100, 110, 90, 105, 10⟩ : Bar), ⟨"2024-01-06", 100, 105, 95, 102, 50⟩])],
          e.1 = (⟨"1001", 1/10, -1/21, 1/2, 1/50, 5⟩ : IntradayMetric).code ∧ needIntraday 1 1 ≤ e.2.length) :=
  ⟨by decide,
    min_history_exclusion.2.1 1 1 [("1001", [(⟨"2024-01-05", 100, 110, 90, 105, 10⟩ : Bar), ⟨"2024-01-06", 100, 105, 95, 102, 50⟩])] (⟨"1001", 1/10, -1/21, 1/2, 1/50, 5⟩ : IntradayMetric)
      (by rw [show metricsScoreboard 1 1 [("1001", [(⟨"2024-01-05", 100, 110, 90, 105, 10⟩ : Bar), ⟨"2024-01-06", 100, 105, 95, 102, 50⟩])] = [(⟨"1001", 1/10, -1/21, 1/2, 1/50, 5⟩ : IntradayMetric)] from by decide]
          exact List.mem_singleton_self _)⟩

/-- C6 counterexample: with the default medium-horizon windows
(`n_ret = 9`, `n_vol_short = 10`, `n_mom = 3`), a code with exactly 10 bars
appears in the medium-horizon output although 10 is below the claim's
minimum `max(n_ret + 1, n_mom + 1, n_vol_short + 1, 5) = 11`; the source's
minimum has no `n_vol_short + 1` term. -/
theorem medium_need_counterexample :
    ((metricsMedium 9 10 60 10 3
        [("1301", [⟨"2024-01-01", 100, 110, 90, 101, 1000⟩, ⟨"2024-01-02", 100, 110, 90, 102, 1000⟩,
          ⟨"2024-01-03", 100, 110, 90, 103, 1000⟩, ⟨"2024-01-04", 100, 110, 90, 104, 1000⟩,
          ⟨"2024-01-05", 100, 110, 90, 105, 1000⟩, ⟨"2024-01-06", 100, 110, 90, 106, 1000⟩,
          ⟨"2024-01-07", 100, 110, 90, 107, 1000⟩, ⟨"2024-01-08", 100, 110, 90, 108, 1000⟩,
          ⟨"2024-01-09", 100, 110, 90, 109, 1000⟩, ⟨"2024-01-10", 100, 110, 90, 110, 1000⟩])]).map
        (fun m => m.code) = ["1301"])
      ∧ ([(⟨"2024-01-01", 100, 110, 90, 101, 1000⟩ : Bar), ⟨"2024-01-02", 100, 110, 90, 102, 1000⟩,
          ⟨"2024-01-03", 100, 110, 90, 103, 1000⟩, ⟨"2024-01-04", 100, 110, 90, 104, 1000⟩,
          ⟨"2024-01-05", 100, 110, 90, 105, 1000⟩, ⟨"2024-01-06", 100, 110, 90, 106, 1000⟩,
          ⟨"2024-01-07", 100, 110, 90, 107, 1000⟩, ⟨"2024-01-08", 100, 110, 90, 108, 1000⟩,
          ⟨"2024-01-09", 100, 110, 90, 109, 1000⟩, ⟨"2024-01-10", 100, 110, 90, 110, 1000⟩].length = 10)
      ∧ needMediumSpec 9 3 10 = 11 ∧ needMedium 9 3 = 10 := by
  refine ⟨by decide, by decide, by decide, by decide⟩

/-- C5 (amended): in the scoreboard route's scoring pass a code appears in
the metric output only with all five factors finite (codes with any
non-finite factor are excluded entirely); in the scores-route variant and in
the medium-horizon variant the history check alone decides membership — a
non-finite factor never excludes a code — and both blends silently replace a
non-finite factor's percentile by `0` (`?? 0`, respectively
`Number.isFinite(x) ? (map.get(x) ?? 0) : 0`). -/
theorem nonfinite_factor_handling :
    (∀ (n_vola n_vol_short : ℕ) (entries : List (String × List Bar)) (m : IntradayMetric),
        m ∈ metricsScoreboard n_vola n_vol_short entries →
        ∃ e ∈ entries, e.1 = m.code
          ∧ intradayFactors n_vola n_vol_short (sortBars e.2)
              = ⟨some m.open_volatility_ratio, some m.gap_ratio, some m.volatility_spike_ratio,
                 some m.intraday_momentum, some m.volume_surge_today⟩)
  ∧ (∀ (n_vola n_vol_short : ℕ) (entries : List (String × List Bar)),
        (metricsScores n_vola n_vol_short entries).length
          = entries.countP (fun e => decide (needIntraday n_vola n_vol_short ≤ (sortBars e.2).length)))
  ∧ (∀ (w : Weights5) (p : PMaps5) (m : IntradayMetricOpt),
        m.volume_surge_today = none →
        scoreScores w p m
          = (w.w_openvol * normLookupOpt p.pOpenVol m.open_volatility_ratio
              + w.w_gap * normLookupOpt p.pGap m.gap_ratio
              + w.w_spike * normLookupOpt p.pSpike m.volatility_spike_ratio
              + w.w_intraday * normLookupOpt p.pIntraday m.intraday_momentum
              + w.w_volsurge * 0) / wSum5 w)
  ∧ (∀ (n_ret n_vol_short n_vol_long n_vola n_mom : ℕ)
        (entries : List (String × List Bar)),
        (metricsMedium n_ret n_vol_short n_vol_long n_vola n_mom entries).length
          = entries.countP (fun e => decide (needMedium n_ret n_mom ≤ (sortBars e.2).length)))
  ∧ (∀ (w : Weights4) (p : PMaps4) (m : MediumMetric),
        m.volchg_ratio = none →
        scoreMedium w p m
          = (w.w_ret * normLookupOpt p.pRet m.ret_mean
              + w.w_volchg * 0
              + w.w_volat * normLookupOpt p.pVolat m.volat_rto_mean
              + w.w_mom * normLookupOpt p.pMom m.mom_n_days) / wSum4 w) := by
  refine ⟨?_, ?_, ?_, ?_, ?_⟩
  · intro n_vola n_vol_short entries m hm
    rcases List.mem_filterMap.mp hm with ⟨e, he, hfe⟩
    dsimp only at hfe
    by_cases hlen : (sortBars e.2).length < needIntraday n_vola n_vol_short
    · rw [if_pos hlen] at hfe
      simp at hfe
    · rw [if_neg hlen] at hfe
      rcases hF : intradayFactors n_vola n_vol_short (sortBars e.2) with ⟨fo, fg, fs, fi, fv⟩
      rw [hF] at hfe
      rcases fo with _ | a <;> rcases fg with _ | b <;> rcases fs with _ | c <;>
        rcases fi with _ | d <;> rcases fv with _ | v <;> simp at hfe
      subst hfe
      exact ⟨e, he, rfl, by rw [hF]⟩
  · intro n_vola n_vol_short entries
    induction entries with
    | nil => rfl
    | cons e es ih =>
      simp only [metricsScores, List.filterMap_cons] at *
      by_cases hlen : (sortBars e.2).length < needIntraday n_vola n_vol_short
      · rw [if_pos hlen]
        rw [List.countP_cons]
        have hp : decide (needIntraday n_vola n_vol_short ≤ (sortBars e.2).length) = false := by
          simp
          omega
        rw [hp]
        simpa using ih
      · rw [if_neg hlen]
        rw [List.countP_cons]
        have hp : decide (needIntraday n_vola n_vol_short ≤ (sortBars e.2).length) = true := by
          simp
          omega
        rw [hp]
        simp only [List.length_cons]
        rw [← ih]
        rfl
  · intro w p m hv
    simp [scoreScores, hv, normLookupOpt]
  · intro n_ret n_vol_short n_vol_long n_vola n_mom entries
    induction entries with
    | nil => rfl
    | cons e es ih =>
      simp only [metricsMedium, List.filterMap_cons] at *
      by_cases hlen : (sortBars e.2).length < needMedium n_ret n_mom
      · rw [if_pos hlen]
        rw [List.countP_cons]
        have hp : decide (needMedium n_ret n_mom ≤ (sortBars e.2).length) = false := by
          simp
          omega
        rw [hp]
        simpa using ih
      · rw [if_neg hlen]
        rw [List.countP_cons]
        have hp : decide (needMedium n_ret n_mom ≤ (sortBars e.2).length) = true := by
          simp
          omega
        rw [hp]
        simp only [List.length_cons]
        rw [← ih]
        rfl
  · intro w p m hv
    simp [scoreMedium, hv, normLookupOpt]

/-- C5 witness: a scores-route metric row whose volume-surge factor is
non-finite, and a medium-horizon metric row whose volume-change factor is
non-finite, are both scored with that component contributing zero. -/
theorem nonfinite_factor_handling_witness :
    ((⟨"1001", some (1/10), some (-1/21), some (1/2), some (1/50), none⟩ :
        IntradayMetricOpt).volume_surge_today = none)
      ∧ scoreScores ⟨1/4, 1/10, 7/20, 1/10, 1/5⟩ ⟨[], [], [], [], []⟩
          ⟨"1001", some (1/10), some (-1/21), some (1/2), some (1/50), none⟩
        = ((1/4 : ℚ) * normLookupOpt [] (some (1/10))
            + (1/10 : ℚ) * normLookupOpt [] (some (-1/21))
            + (7/20 : ℚ) * normLookupOpt [] (some (1/2))
            + (1/10 : ℚ) * normLookupOpt [] (some (1/50))
            + (1/5 : ℚ) * 0) / wSum5 ⟨1/4, 1/10, 7/20, 1/10, 1/5⟩
      ∧ ((⟨"1301", some (1/10), none, some (1/2), some (1/50)⟩ :
            MediumMetric).volchg_ratio = none)
      ∧ scoreMedium ⟨1/4, 1/4, 1/4, 1/4⟩ ⟨[], [], [], []⟩
          ⟨"1301", some (1/10), none, some (1/2), some (1/50)⟩
        = ((1/4 : ℚ) * normLookupOpt [] (some (1/10))
            + (1/4 : ℚ) * 0
            + (1/4 : ℚ) * normLookupOpt [] (some (1/2))
            + (1/4 : ℚ) * normLookupOpt [] (some (1/50))) / wSum4 ⟨1/4, 1/4, 1/4, 1/4⟩ :=
  ⟨rfl, nonfinite_factor_handling.2.2.1 ⟨1/4, 1/10, 7/20, 1/10, 1/5⟩ ⟨[], [], [], [], []⟩
    ⟨"1001", some (1/10), some (-1/21), some (1/2), some (1/50), none⟩ rfl,
   rfl, nonfinite_factor_handling.2.2.2.2 ⟨1/4, 1/4, 1/4, 1/4⟩ ⟨[], [], [], []⟩
    ⟨"1301", some (1/10), none, some (1/2), some (1/50)⟩ rfl⟩

/-- C5 counterexample: in the scores-route scoring pass, the code `1001`,
whose volume-surge factor is non-finite (its previous day's volume is zero),
is not excluded: it is retained, scored with the non-finite factor defaulted
to percentile `0`, and ranked first with score `4/5`. -/
theorem nonfinite_default_counterexample :
    metricsScoreboard 1 1
        [("1001", [⟨"2024-01-05", 100, 110, 90, 105, 0⟩, ⟨"2024-01-06", 100, 105, 95, 102, 50⟩])] = []
      ∧ (metricsScores 1 1
          [("1001", [⟨"2024-01-05", 100, 110, 90, 105, 0⟩, ⟨"2024-01-06", 100, 105, 95, 102, 50⟩])]).map
          (fun m => (m.code, m.volume_surge_today)) = [("1001", none)]
      ∧ rankItems (some 100)
          ((metricsScores 1 1
            [("1001", [⟨"2024-01-05", 100, 110, 90, 105, 0⟩, ⟨"2024-01-06", 100, 105, 95, 102, 50⟩])]).map
            (fun m => (m.code, scoreScores ⟨1/4, 1/10, 7/20, 1/10, 1/5⟩
              (pmapsScores (metricsScores 1 1
                [("1001", [⟨"2024-01-05", 100, 110, 90, 105, 0⟩, ⟨"2024-01-06", 100, 105, 95, 102, 50⟩])])) m)))
          = [⟨1, "1001", 4/5⟩] := by
  refine ⟨by decide, by decide, by decide⟩

/-! ### Normalization lemmas -/

theorem four_prefix :
    ∀ (w : List Char) (suf : List Char) (c1 c2 c3 c4 : Char) (rest : List Char),
      w.length = 4 → w ++ suf = c1 :: c2 :: c3 :: c4 :: rest → w = [c1, c2, c3, c4] ∧ suf = rest := by
  intro w suf c1 c2 c3 c4 rest hlen happ
  rcases w with _ | ⟨a, w⟩
  · simp only [List.length_nil] at hlen
    omega
  rcases w with _ | ⟨b, w⟩
  · simp only [List.length_cons, List.length_nil] at hlen
    omega
  rcases w with _ | ⟨c, w⟩
  · simp only [List.length_cons, List.length_nil] at hlen
    omega
  rcases w with _ | ⟨d, w⟩
  · simp only [List.length_cons, List.length_nil] at hlen
    omega
  rcases w with _ | ⟨e, w⟩
  · simp only [List.cons_append, List.nil_append] at happ
    injection happ with h1 t1
    injection t1 with h2 t2
    injection t2 with h3 t3
    injection t3 with h4 t4
    subst h1
    subst h2
    subst h3
    subst h4
    subst t4
    exact ⟨rfl, rfl⟩
  · simp only [List.length_cons, List.length_nil] at hlen
    omega

theorem firstFourDigits_none :
    ∀ (l : List Char), firstFourDigits l = none →
      ∀ (pre w suf : List Char), l = pre ++ w ++ suf → w.length = 4 →
        w.all Char.isDigit = true → False := by
  intro l
  induction l with
  | nil =>
    intro _ pre w suf hsplit hlen _
    have : pre.length + w.length + suf.length = 0 := by
      have := congrArg List.length hsplit
      simp at this
      omega
    omega
  | cons c1 xs ih =>
    intro hnone pre w suf hsplit hlen hdig
    rcases xs with _ | ⟨c2, xs2⟩
    · have := congrArg List.length hsplit
      simp at this
      omega
    rcases xs2 with _ | ⟨c3, xs3⟩
    · have := congrArg List.length hsplit
      simp at this
      omega
    rcases xs3 with _ | ⟨c4, rest⟩
    · have := congrArg List.length hsplit
      simp at this
      omega
    simp only [firstFourDigits] at hnone
    by_cases hd : (c1.isDigit && c2.isDigit && c3.isDigit && c4.isDigit) = true
    · rw [if_pos hd] at hnone
      simp at hnone
    · rw [if_neg hd] at hnone
      rcases pre with _ | ⟨p1, pre'⟩
      · simp only [List.nil_append] at hsplit
        have hw := four_prefix w suf c1 c2 c3 c4 rest hlen hsplit.symm
        rw [hw.1] at hdig
        simp only [List.all_cons, List.all_nil, Bool.and_true] at hdig
        rw [show (c1.isDigit && c2.isDigit && c3.isDigit && c4.isDigit)
            = (c1.isDigit && (c2.isDigit && (c3.isDigit && c4.isDigit))) from by
          cases c1.isDigit <;> cases c2.isDigit <;> cases c3.isDigit <;> cases c4.isDigit <;> rfl] at hd
        exact hd hdig
      · simp only [List.cons_append] at hsplit
        injection hsplit with h1 h2
        exact ih hnone pre' w suf h2 hlen hdig

theorem firstFourDigits_some :
    ∀ (l : List Char) (cs : List Char), firstFourDigits l = some cs →
      cs.length = 4 ∧ cs.all Char.isDigit = true
        ∧ ∃ pre suf, l = pre ++ cs ++ suf
          ∧ ∀ (pre' w suf' : List Char), l = pre' ++ w ++ suf' → w.length = 4 →
              w.all Char.isDigit = true → pre.length ≤ pre'.length := by
  intro l
  induction l with
  | nil => intro cs h; simp [firstFourDigits] at h
  | cons c1 xs ih =>
    intro cs h
    rcases xs with _ | ⟨c2, xs2⟩
    · simp [firstFourDigits] at h
    rcases xs2 with _ | ⟨c3, xs3⟩
    · simp [firstFourDigits] at h
    rcases xs3 with _ | ⟨c4, rest⟩
    · simp [firstFourDigits] at h
    simp only [firstFourDigits] at h
    by_cases hd : (c1.isDigit && c2.isDigit && c3.isDigit && c4.isDigit) = true
    · rw [if_pos hd] at h
      cases h
      refine ⟨rfl, ?_, [], rest, by simp, ?_⟩
      · simp only [List.all_cons, List.all_nil, Bool.and_true]
        rw [show (c1.isDigit && (c2.isDigit && (c3.isDigit && c4.isDigit)))
            = (c1.isDigit && c2.isDigit && c3.isDigit && c4.isDigit) from by
          cases c1.isDigit <;> cases c2.isDigit <;> cases c3.isDigit <;> cases c4.isDigit <;> rfl]
        exact hd
      · intro pre' w suf' _ _ _
        simp
    · rw [if_neg hd] at h
      obtain ⟨hlen, hdig, pre, suf, hsplit, hmin⟩ := ih cs h
      refine ⟨hlen, hdig, c1 :: pre, suf, by simp [hsplit], ?_⟩
      intro pre' w suf' hsplit' hwlen hwdig
      rcases pre' with _ | ⟨p1, pre''⟩
      · exfalso
        simp only [List.nil_append] at hsplit'
        have hw := four_prefix w suf' c1 c2 c3 c4 rest hwlen hsplit'.symm
        rw [hw.1] at hwdig
        simp only [List.all_cons, List.all_nil, Bool.and_true] at hwdig
        rw [show (c1.isDigit && c2.isDigit && c3.isDigit && c4.isDigit)
            = (c1.isDigit && (c2.isDigit && (c3.isDigit && c4.isDigit))) from by
          cases c1.isDigit <;> cases c2.isDigit <;> cases c3.isDigit <;> cases c4.isDigit <;> rfl] at hd
        exact hd hwdig
      · simp only [List.cons_append] at hsplit'
        injection hsplit' with h1 h2
        simp only [List.length_cons]
        exact Nat.succ_le_succ (hmin pre'' w suf' h2 hwlen hwdig)

theorem normalizeRecord_some_iff (q : RawQuote) (d : DailyQuote) :
    normalizeRecord q = some d ↔
      (¬ normalizeCode (q.Code.getD "") = "") ∧ (¬ q.Date.getD "" = "")
        ∧ d = ⟨q.Date.getD "", normalizeCode (q.Code.getD ""), q.Open, q.High, q.Low,
            q.Close, q.Volume⟩ := by
  by_cases hc : normalizeCode (q.Code.getD "") = ""
  · simp [normalizeRecord, hc]
  · by_cases hd : q.Date.getD "" = ""
    · simp [normalizeRecord, hd]
    · have hstep : normalizeRecord q
          = some ⟨q.Date.getD "", normalizeCode (q.Code.getD ""), q.Open, q.High, q.Low,
              q.Close, q.Volume⟩ := by
        unfold normalizeRecord
        rw [if_neg]
        simp [hc, hd]
      rw [hstep, Option.some.injEq]
      constructor
      · intro h
        exact ⟨hc, hd, h.symm⟩
      · intro h
        exact h.2.2.symm

/-- C9 (amended): normalization reduces a raw code to canonical form by
extracting the first window of four consecutive digits (the regex
`/(\d{4})/` — not the first maximal digit run): the extracted code is a
length-4 all-digit segment of the trimmed raw code at the earliest possible
position, and the empty result occurs exactly when no four consecutive
digits exist; numeric fields are carried as numbers or null, and a record
whose code cannot be normalized or whose date is missing is dropped silently
— it contributes nothing to the fetched batch. -/
theorem normalization_spec :
    (∀ s : String, normalizeCode s = "" ∨
        ((normalizeCode s).data.length = 4 ∧ (normalizeCode s).data.all Char.isDigit = true
          ∧ ∃ pre suf, trimChars s.data = pre ++ (normalizeCode s).data ++ suf
            ∧ ∀ (pre' w suf' : List Char), trimChars s.data = pre' ++ w ++ suf' →
                w.length = 4 → w.all Char.isDigit = true → pre.length ≤ pre'.length))
  ∧ (∀ s : String, normalizeCode s = "" →
        ∀ (pre w suf : List Char), trimChars s.data = pre ++ w ++ suf → w.length = 4 →
          w.all Char.isDigit = true → False)
  ∧ (∀ (qs : List RawQuote) (d : DailyQuote),
        d ∈ normalizeRecords qs ↔ ∃ q ∈ qs,
          (¬ normalizeCode (q.Code.getD "") = "") ∧ (¬ q.Date.getD "" = "")
            ∧ d = ⟨q.Date.getD "", normalizeCode (q.Code.getD ""), q.Open, q.High, q.Low,
                q.Close, q.Volume⟩)
  ∧ (∀ qs : List RawQuote,
        (normalizeRecords qs).length
          = qs.countP (fun q => !(normalizeCode (q.Code.getD "") == "")
              && !(q.Date.getD "" == ""))) := by
  refine ⟨?_, ?_, ?_, ?_⟩
  · intro s
    unfold normalizeCode
    rcases hh : firstFourDigits (trimChars s.data) with _ | cs
    · exact Or.inl rfl
    · right
      obtain ⟨hlen, hdig, pre, suf, hsplit, hmin⟩ := firstFourDigits_some _ cs hh
      exact ⟨hlen, hdig, pre, suf, hsplit, hmin⟩
  · intro s hs pre w suf hsplit hwlen hwdig
    rcases hh : firstFourDigits (trimChars s.data) with _ | cs
    · exact firstFourDigits_none _ hh pre w suf hsplit hwlen hwdig
    · have hlen := (firstFourDigits_some _ cs hh).1
      have hs' : normalizeCode s = String.mk cs := by
        unfold normalizeCode
        rw [hh]
      rw [hs'] at hs
      have hnil : cs = ([] : List Char) := congrArg String.data hs
      rw [hnil] at hlen
      simp at hlen
  · intro qs d
    rw [normalizeRecords, List.mem_filterMap]
    constructor
    · intro ⟨q, hq, hn⟩
      exact ⟨q, hq, (normalizeRecord_some_iff q d).mp hn⟩
    · intro ⟨q, hq, hn⟩
      exact ⟨q, hq, (normalizeRecord_some_iff q d).mpr hn⟩
  · intro qs
    induction qs with
    | nil => rfl
    | cons q qs ih =>
      simp only [normalizeRecords, List.filterMap_cons, List.countP_cons] at *
      rcases hn : normalizeRecord q with _ | d
      · have hp : (!(normalizeCode (q.Code.getD "") == "") && !(q.Date.getD "" == "")) = false := by
          by_cases hc : normalizeCode (q.Code.getD "") = ""
          · simp [hc]
          · by_cases hd' : q.Date.getD "" = ""
            · simp [hd']
            · exfalso
              have hsome := (normalizeRecord_some_iff q
                  ⟨q.Date.getD "", normalizeCode (q.Code.getD ""), q.Open, q.High, q.Low,
                    q.Close, q.Volume⟩).mpr ⟨hc, hd', rfl⟩
              rw [hn] at hsome
              exact Option.noConfusion hsome
        rw [hp]
        simpa using ih
      · have h3 := (normalizeRecord_some_iff q d).mp hn
        have hp : (!(normalizeCode (q.Code.getD "") == "") && !(q.Date.getD "" == "")) = true := by
          simp [h3.1, h3.2.1]
        rw [hp]
        simp only [List.length_cons]
        rw [← ih]
        rfl

/-- C9 witness: the record-count characterization applied to a batch holding
a normalizable record, a record whose code has no four-digit window, and a
record without a date. -/
theorem normalization_spec_witness :
    (normalizeRecords
        [⟨some ("6740-T"), some ("2024-01-05"), some 1, none, some 3, none, some 5⟩,
          ⟨some ("ABC"), some ("2024-01-05"), none, none, none, none, none⟩,
          ⟨some ("9984.0"), none, none, none, none, none, none⟩]).length
      = [(⟨some ("6740-T"), some ("2024-01-05"), some 1, none, some 3, none, some 5⟩ : RawQuote),
          ⟨some ("ABC"), some ("2024-01-05"), none, none, none, none, none⟩,
          ⟨some ("9984.0"), none, none, none, none, none, none⟩].countP
          (fun q => !(normalizeCode (q.Code.getD "") == "") && !(q.Date.getD "" == "")) :=
  normalization_spec.2.2.2
    [⟨some ("6740-T"), some ("2024-01-05"), some 1, none, some 3, none, some 5⟩,
      ⟨some ("ABC"), some ("2024-01-05"), none, none, none, none, none⟩,
      ⟨some ("9984.0"), none, none, none, none, none, none⟩]

/-- C9 counterexample: the claimed "first embedded digit run" normalization
disagrees with the source's `/(\d{4})/` window: on `"12345"` the source keeps
`"1234"` while the first digit run is `"12345"`, and on `"123-4567"` the
source keeps `"4567"` while the first digit run is `"123"`. -/
theorem normalizeCode_digit_run_counterexample :
    normalizeCode "12345" = "1234" ∧ normalizeCodeSpec "12345" = "12345"
      ∧ normalizeCode "123-4567" = "4567" ∧ normalizeCodeSpec "123-4567" = "123"
      ∧ ("1234" : String) ≠ "12345" ∧ ("4567" : String) ≠ "123" := by
  refine ⟨by decide, by decide, by decide, by decide, by decide, by decide⟩

/-- C8 (amended): a malformed `to`, a malformed (given or derived) `from`, and
`from > to` — and only these — are rejected with the route's three validation
messages, and such a rejection happens before any network call or store
read/write: the 400-response is independent of the entire environment (auth,
provider, store, ledger).  A non-numeric `limit` is NOT rejected: it survives
parsing as a `NaN` clamp result (see the counterexample). -/
theorem request_validation :
    (∀ (env env' : Env) (today : Ymd) (p : ReqParams) (msg : String),
        parseParams today p = .error msg →
          scoreboardGET env today p = .badRequest msg
            ∧ scoreboardGET env today p = scoreboardGET env' today p)
  ∧ (∀ (today : Ymd) (p : ReqParams) (msg : String),
        parseParams today p = .error msg ↔
          ((parseYMD (p.to_.getD (ymd today)) = none ∧ msg = "invalid to (YYYY-MM-DD)")
            ∨ (∃ toD, parseYMD (p.to_.getD (ymd today)) = some toD
                ∧ parseYMD (fromValueOf today p toD) = none
                ∧ msg = "invalid from (YYYY-MM-DD)")
            ∨ (∃ toD fromD, parseYMD (p.to_.getD (ymd today)) = some toD
                ∧ parseYMD (fromValueOf today p toD) = some fromD
                ∧ ymdLt toD fromD = true ∧ msg = "from must be <= to"))) := by
  constructor
  · intro env env' today p msg h
    constructor
    · unfold scoreboardGET
      rw [h]
    · unfold scoreboardGET
      rw [h]
  · intro today p msg
    unfold parseParams
    rcases hto : parseYMD (p.to_.getD (ymd today)) with _ | toD
    · dsimp only
      constructor
      · intro h
        exact Or.inl ⟨rfl, (Except.error.inj h).symm⟩
      · rintro (⟨-, rfl⟩ | ⟨toD, htoD, -, -⟩ | ⟨toD, fromD, htoD, -, -, -⟩)
        · rfl
        · exact Option.noConfusion htoD
        · exact Option.noConfusion htoD
    · rcases hfrom : parseYMD (fromValueOf today p toD) with _ | fromD
      · simp only [hfrom]
        constructor
        · intro h
          exact Or.inr (Or.inl ⟨toD, rfl, hfrom, (Except.error.inj h).symm⟩)
        · rintro (⟨hnone, -⟩ | ⟨toD', htoD, -, rfl⟩ | ⟨toD', fromD', htoD, hfromD, -, -⟩)
          · exact Option.noConfusion hnone
          · rfl
          · have h1 := Option.some.inj htoD
            subst h1
            rw [hfrom] at hfromD
            exact Option.noConfusion hfromD
      · simp only [hfrom]
        by_cases hlt : ymdLt toD fromD = true
        · rw [if_pos hlt]
          constructor
          · intro h
            exact Or.inr (Or.inr ⟨toD, fromD, rfl, hfrom, hlt, (Except.error.inj h).symm⟩)
          · rintro (⟨hnone, -⟩ | ⟨toD', htoD, hfromD, -⟩ | ⟨toD', fromD', htoD, hfromD, hlt', rfl⟩)
            · exact Option.noConfusion hnone
            · have h1 := Option.some.inj htoD
              subst h1
              rw [hfrom] at hfromD
              exact Option.noConfusion hfromD
            · rfl
        · rw [if_neg hlt]
          constructor
          · intro h
            exact Except.noConfusion h
          · rintro (⟨hnone, -⟩ | ⟨toD', htoD, hfromD, -⟩ | ⟨toD', fromD', htoD, hfromD, hlt', -⟩)
            · exact Option.noConfusion hnone
            · have h1 := Option.some.inj htoD
              subst h1
              rw [hfrom] at hfromD
              exact Option.noConfusion hfromD
            · have h1 := Option.some.inj htoD
              subst h1
              rw [hfrom] at hfromD
              have h2 := Option.some.inj hfromD
              subst h2
              exact absurd hlt' hlt

/-- C8 witness: a request with `to = "bad"` is rejected as `invalid to` with
the store, ledger and provider untouched. -/
theorem request_validation_witness :
    scoreboardGET
        ⟨.ok (), .ok [], ⟨fun _ => [], fun _ => [], fun _ => true, fun _ => 0⟩, [], [], []⟩
        ⟨2024, 5, 1⟩
        ⟨some ("bad"), none, none, none, none, none, none, none, 1, 1, ⟨1, 1, 1, 1, 1⟩⟩
      = .badRequest ("invalid to (YYYY-MM-DD)") :=
  (request_validation.1
    ⟨.ok (), .ok [], ⟨fun _ => [], fun _ => [], fun _ => true, fun _ => 0⟩, [], [], []⟩
    ⟨.ok (), .ok [], ⟨fun _ => [], fun _ => [], fun _ => true, fun _ => 0⟩, [], [], []⟩
    ⟨2024, 5, 1⟩
    ⟨some ("bad"), none, none, none, none, none, none, none, 1, 1, ⟨1, 1, 1, 1, 1⟩⟩
    "invalid to (YYYY-MM-DD)" (by decide)).1

/-- C8 counterexample: a request with the non-numeric `limit = "abc"` is not
rejected: parsing succeeds (the limit becomes the `NaN` clamp result `none`),
and the pipeline proceeds to read the store — the response reports 2 bars
read back and 1 scored code, only the final slice is empty. -/
theorem nonnumeric_limit_processed_counterexample :
    parseParams ⟨2024, 5, 1⟩
        ⟨some ("2024-01-10"), some ("2024-01-01"), none, some ("abc"), some ("0"), none, none,
          none, 1, 1, ⟨1/4, 1/10, 7/20, 1/10, 1/5⟩⟩
      = .ok ⟨"2024-01-01", "2024-01-10", ⟨2024, 1, 1⟩, ⟨2024, 1, 10⟩, some 3, none, false, false,
          1, 1, ⟨1/4, 1/10, 7/20, 1/10, 1/5⟩, some 0, "over"⟩
  ∧ scoreboardGET
      ⟨.ok (), .ok [], ⟨fun _ => [], fun _ => [], fun _ => true, fun _ => 0⟩, [],
        [⟨"1001", "2024-01-05", some 100, some 110, some 90, some 105, some 10⟩,
          ⟨"1001", "2024-01-06", some 100, some 105, some 95, some 102, some 50⟩], []⟩
      ⟨2024, 5, 1⟩
      ⟨some ("2024-01-10"), some ("2024-01-01"), none, some ("abc"), some ("0"), none, none,
        none, 1, 1, ⟨1/4, 1/10, 7/20, 1/10, 1/5⟩⟩
      = .ok [] 2 1 := ⟨by decide, by decide⟩

/-- C10 (amended): for a numeric `limit` the clamp result is
`max(10, min(500, limit))`, and the effective item count is its floor
(`slice`'s ToIntegerOrInfinity truncation), which lies in [10, 500] — so a
limit below 10 yields up to 10 items, one above 500 is capped at 500, and the
ranked output never holds more than 500 items; the ranked output length is
always `min(effective count, number of scored codes)`; a numeric `monthsBack`
is clamped into [1, 24] rather than rejected. -/
theorem limit_monthsBack_clamp :
    (∀ (p : ReqParams) (q : ℚ), jsNumber (p.limit.getD "100") = some q →
        limitVal p = some (max 10 (min 500 q))
          ∧ sliceCount (limitVal p) = (⌊max 10 (min 500 q)⌋).toNat
          ∧ 10 ≤ sliceCount (limitVal p) ∧ sliceCount (limitVal p) ≤ 500)
  ∧ (∀ (limit : Option ℚ) (scored : List (String × ℚ)),
        (rankItems limit scored).length = min (sliceCount limit) scored.length)
  ∧ (∀ (p : ReqParams) (q : ℚ), jsNumber (p.monthsBack.getD "3") = some q →
        monthsBackVal p = some (max 1 (min 24 q)) ∧ 1 ≤ max 1 (min 24 q)
          ∧ max 1 (min 24 q) ≤ 24) := by
  refine ⟨?_, ?_, ?_⟩
  · intro p q h
    have hl : limitVal p = some (max 10 (min 500 q)) := by
      simp [limitVal, jsMax, jsMin, h]
    have hpos : ¬ (max 10 (min 500 q) ≤ (0 : ℚ)) := by
      have h10 : (10 : ℚ) ≤ max 10 (min 500 q) := le_max_left _ _
      intro hc
      linarith
    have hs : sliceCount (limitVal p) = (⌊max 10 (min 500 q)⌋).toNat := by
      rw [hl]
      simp [sliceCount, hpos]
    have hfl : (10 : ℤ) ≤ ⌊max 10 (min 500 q)⌋ := by
      rw [Int.le_floor]
      exact_mod_cast le_max_left _ _
    have hfu : ⌊max 10 (min 500 q)⌋ ≤ 500 := by
      have hle : max 10 (min 500 q) ≤ (500 : ℚ) :=
        max_le (by norm_num) (min_le_left _ _)
      calc ⌊max 10 (min 500 q)⌋ ≤ ⌊(500 : ℚ)⌋ := Int.floor_le_floor hle
        _ = 500 := by norm_num
    refine ⟨hl, hs, ?_, ?_⟩
    · rw [hs]
      omega
    · rw [hs]
      omega
  · intro limit scored
    have hperm := List.perm_insertionSort (fun a b : String × ℚ => b.2 ≤ a.2) scored
    simp [rankItems, List.length_take, hperm.length_eq]
  · intro p q h
    refine ⟨by simp [monthsBackVal, jsMax, jsMin, h], le_max_left _ _,
      max_le (by norm_num) (min_le_left _ _)⟩

/-- C10 witness: the clamp characterization at the concrete request
`limit = "7"`: the clamp gives 10 and the effective count is 10. -/
theorem limit_monthsBack_clamp_witness :
    limitVal ⟨none, none, none, some ("7"), none, none, none, none, 1, 1, ⟨1, 1, 1, 1, 1⟩⟩
        = some (max 10 (min 500 7))
      ∧ sliceCount
          (limitVal ⟨none, none, none, some ("7"), none, none, none, none, 1, 1, ⟨1, 1, 1, 1, 1⟩⟩)
          = (⌊max 10 (min 500 (7 : ℚ))⌋).toNat
      ∧ 10 ≤ sliceCount
          (limitVal ⟨none, none, none, some ("7"), none, none, none, none, 1, 1, ⟨1, 1, 1, 1, 1⟩⟩)
      ∧ sliceCount
          (limitVal ⟨none, none, none, some ("7"), none, none, none, none, 1, 1, ⟨1, 1, 1, 1, 1⟩⟩)
          ≤ 500 :=
  limit_monthsBack_clamp.1
    ⟨none, none, none, some ("7"), none, none, none, none, 1, 1, ⟨1, 1, 1, 1, 1⟩⟩ 7 (by decide)

/-- C10 counterexample: a fractional numeric limit: for `limit = "10.5"` the
clamp formula yields 10.5, but the slice keeps ⌊10.5⌋ = 10 items of an
11-element scored list, so the effective truncation limit is not
`max(10, min(500, limit))` itself. -/
theorem fractional_limit_counterexample :
    limitVal ⟨none, none, none, some ("10.5"), none, none, none, none, 1, 1, ⟨1, 1, 1, 1, 1⟩⟩
        = some (21 / 2)
      ∧ (rankItems (some (21 / 2))
          [("1001", 1), ("1002", 1), ("1003", 1), ("1004", 1), ("1005", 1), ("1006", 1),
            ("1007", 1), ("1008", 1), ("1009", 1), ("1010", 1), ("1011", 1)]).length = 10
      ∧ ¬ ((21 : ℚ) / 2 = 10) := ⟨by decide, by decide, by decide⟩
